import Mathlib

/-
Verification of @sparkstone/solid-validation (src/main.ts, src/pocketbase.ts)
against its specification.

The library registers DOM elements for validation, runs user validator
functions, mirrors failure messages into a reactive error store, and ships
two PocketBase data-shaping helpers.  The development below is a shallow
embedding: DOM elements become a record of the observable attributes the
library touches, the Solid store becomes an insertion-ordered association
list with the merge semantics of `setStore` (assigning `undefined` deletes
a key), and the async handlers become pure state-transition functions;
`await`-sequencing of a single-threaded event-loop pass is modelled by
ordinary sequential composition.
-/

namespace SolidValidation

/-- A DOM element as the library observes and mutates it.
`mounted` models `document.contains(element)`; `hasValidity` models whether
the element implements the constraint-validation API (`setCustomValidity`,
`checkValidity`, `validationMessage` exist — true for `HTMLInputElement`,
false for e.g. a `div` registered with `data-name`); `nativeMsg` is the
message native constraint validation reports ("" when natively valid);
`customMsg` is the current custom validity message; `name` models
`element.name ?? element.dataset.name`. -/
structure Elem where
  name : String
  mounted : Bool
  hasValidity : Bool
  nativeMsg : String
  customMsg : String
  ariaInvalid : Option String
  hasErrorClass : Bool
  deriving Repr, DecidableEq

/-- DOM `element.validationMessage`: absent (modelled "") on elements without
the constraint-validation API; otherwise the custom message when one is set,
else the native message. -/
def validationMessage (el : Elem) : String :=
  if el.hasValidity then (if el.customMsg != "" then el.customMsg else el.nativeMsg) else ""

/-- `element.setCustomValidity?.(m)`: optional-chained in the source, hence a
no-op on elements without the constraint-validation API. -/
def setCustomValidity (el : Elem) (m : String) : Elem :=
  if el.hasValidity then { el with customMsg := m } else el

/-- `element.setAttribute('aria-invalid', v)`. -/
def setAriaInvalid (el : Elem) (v : String) : Elem :=
  { el with ariaInvalid := some v }

/-- `element.classList.toggle(errorClass, force)`. -/
def toggleErrorClass (el : Elem) (force : Bool) : Elem :=
  { el with hasErrorClass := force }

/-- A validator's result: `none` models every non-string falsy value
(`false`, `0`, `null`, `undefined`, `void`); `some s` models the string `s`.
JS truthiness of the result is `truthy`. -/
abbrev ValidatorFn := Elem → Option String

/-- JS truthiness of a `string | Falsy` validator result: truthy exactly for
a non-empty string. -/
def truthy : Option String → Bool
  | some s => s != ""
  | none => false

/-- One registered field: `{ element, validators }`.  An entry of the
validator list that is `none` models a falsy entry of the `Validator[]`
array (the source's `Validator<Element> = Falsy | ((el) => ...)`), which
`checkValid` skips with `if (!validator) continue`. -/
structure Field where
  element : Elem
  validators : List (Option ValidatorFn)

/-- The reactive error store: an insertion-ordered association list from
field name to message string, with Solid `setStore` merge semantics. -/
abbrev ErrMap := List (String × String)

/-- Reading `errors[k]`: the value of the first (and in store-built maps
only) entry with key `k`. -/
def getErr (m : ErrMap) (k : String) : Option String :=
  (m.find? (fun p => p.1 == k)).map Prod.snd

/-- Assigning a present value to key `k` of a JS-object-like map: an
existing key keeps its position, a new key is appended. -/
def setKey (m : List (String × String)) (k v : String) : List (String × String) :=
  if (m.find? (fun p => p.1 == k)).isSome then
    m.map (fun p => if p.1 == k then (k, v) else p)
  else m ++ [(k, v)]

/-- Solid `setErrors({ [k]: v })` for one key: a string value is stored,
`undefined` deletes the key. -/
def setErr (m : ErrMap) (k : String) : Option String → ErrMap
  | some v => setKey m k v
  | none => m.filter (fun p => p.1 != k)

/-- The `for (const validator of validators)` loop body of `checkValid`:
falsy validator entries are skipped, awaiting is sequential in list order,
and the loop breaks at the first truthy result, which is returned. -/
def runValidators (el : Elem) : List (Option ValidatorFn) → Option String
  | [] => none
  | v? :: rest =>
    match v? with
    | none => runValidators el rest
    | some v =>
      let text := v el
      if truthy text then text else runValidators el rest

/-- Result of one `checkValid(field, setErrors, errorClass)()` call: the
field with its (aliased, mutated-in-place) element, the error store, and
the returned `message` ("" models the falsy no-failure return). -/
structure CheckResult where
  field : Field
  errors : ErrMap
  message : String

/-- Shallow embedding of `checkValid` (src/main.ts): clear custom validity,
run native `checkValidity`, read `validationMessage`; when it is falsy run
the validators sequentially, the first truthy text becoming the message and
the custom validity; on any resulting message, add the error class (when
configured), set `aria-invalid="true"`, and write the message into the
error store under the element's name. -/
def checkValid (f : Field) (errors : ErrMap) (errorClass : String) : CheckResult :=
  let el0 := setCustomValidity f.element ""
  let message0 := validationMessage el0
  let afterLoop : Elem × String :=
    if message0 = "" then
      match runValidators el0 f.validators with
      | some t => (setCustomValidity el0 t, t)
      | none => (el0, message0)
    else (el0, message0)
  let el1 := afterLoop.1
  let message := afterLoop.2
  if message != "" then
    let el2 := if errorClass != "" then toggleErrorClass el1 true else el1
    let el3 := setAriaInvalid el2 "true"
    { field := { f with element := el3 },
      errors := setErr errors el3.name (some message),
      message := message }
  else
    { field := { f with element := el1 }, errors := errors, message := message }

/-- Specification view of `checkValid`: the message one call returns — the
native message when native validation fails, otherwise the first truthy
validator text, otherwise "". -/
def checkMessage (f : Field) : String :=
  let el0 := setCustomValidity f.element ""
  if validationMessage el0 != "" then validationMessage el0
  else
    match runValidators el0 f.validators with
    | some t => t
    | none => ""

/-- Specification view of `checkValid`: the element state after the
validator loop, before failure marking. -/
def loopElem (f : Field) : Elem :=
  let el0 := setCustomValidity f.element ""
  if validationMessage el0 != "" then el0
  else
    match runValidators el0 f.validators with
    | some t => setCustomValidity el0 t
    | none => el0

/-- Specification view of `checkValid`: the element state one call leaves
behind. -/
def checkElem (f : Field) (errorClass : String) : Elem :=
  if checkMessage f != "" then
    setAriaInvalid
      (if errorClass != "" then toggleErrorClass (loopElem f) true else loopElem f) "true"
  else loopElem f

/-- The whole reactive context created by `useForm`: the field registry (a
JS object, modelled insertion-ordered), the error store, and the two
boolean signals. -/
structure FormState where
  fields : List (String × Field)
  errors : ErrMap
  isSubmitting : Bool
  isSubmitted : Bool

/-- The state `useForm` starts from: empty registry, empty store, both
signals false. -/
def initState : FormState :=
  { fields := [], errors := [], isSubmitting := false, isSubmitted := false }

/-- Assignment `fields[name] = config` on the registry object: existing key
keeps its position, new key appended. -/
def setField (fs : List (String × Field)) (k : String) (f : Field) : List (String × Field) :=
  if (fs.find? (fun p => p.1 == k)).isSome then
    fs.map (fun p => if p.1 == k then (k, f) else p)
  else fs ++ [(k, f)]

/-- The body of the `queueMicrotask` in the `validate` directive: coerce the
accessor value (`Array.isArray(v) ? v : []`, modelled by an `Option` list),
and store `{ element: ref, validators }` under the element's name. -/
def registerField (s : FormState) (ref : Elem)
    (accessorValue : Option (List (Option ValidatorFn))) : FormState :=
  let validators := accessorValue.getD []
  { s with fields := setField s.fields ref.name { element := ref, validators := validators } }

/-- The installed `ref.onblur` handler, embedded exactly as written: it sets
`isSubmitted` to false and then *returns* `checkValid(config, setErrors,
errorClass)` — the async closure produced by the curried `checkValid` —
without ever invoking it, so no validation, element mutation or store write
happens on blur.  The discarded closure is kept here to make that visible. -/
def onblur (s : FormState) (config : Field) (errorClass : String) : FormState :=
  let _unusedThunk := fun (_ : Unit) => checkValid config s.errors errorClass
  { s with isSubmitted := false }

/-- The installed `ref.oninput` handler: reset `isSubmitted`; when the store
entry for the field's name is truthy, delete it, set
`aria-invalid="false"` and remove the error class (when configured);
otherwise return with no further change.  Returns the new state and the
(possibly mutated) element. -/
def oninput (s : FormState) (ref : Elem) (errorClass : String) : FormState × Elem :=
  let s1 : FormState := { s with isSubmitted := false }
  if !(truthy (getErr s1.errors ref.name)) then (s1, ref)
  else
    let s2 : FormState := { s1 with errors := setErr s1.errors ref.name none }
    let ref1 := setAriaInvalid ref "false"
    let ref2 := if errorClass != "" then toggleErrorClass ref1 false else ref1
    (s2, ref2)

/-- `validateField(fieldName)`: `false` immediately for an unregistered
name; otherwise run `checkValid` on the field (the focus/scrollIntoView on
failure has no modelled state) and return `!errors[fieldName]`. -/
def validateField (s : FormState) (fieldName : String) (errorClass : String) :
    FormState × Bool :=
  match s.fields.find? (fun p => p.1 == fieldName) with
  | none => (s, false)
  | some kf =>
    let r := checkValid kf.2 s.errors errorClass
    let s1 : FormState := { s with fields := setField s.fields fieldName r.field,
                                   errors := r.errors }
    (s1, !(truthy (getErr s1.errors fieldName)))

/-- Accumulating decimal parse of a key's characters: `none` as soon as a
non-digit appears. -/
def parseDigitsAux : List Char → Nat → Option Nat
  | [], acc => some acc
  | c :: rest, acc =>
    if c.isDigit then parseDigitsAux rest (acc * 10 + (c.toNat - 48)) else none

/-- The numeric value of a non-empty all-digit key. -/
def strToNat? (s : String) : Option Nat :=
  match s.data with
  | [] => none
  | l => parseDigitsAux l 0

/-- ECMAScript array-index test for a property key: `some n` when the key
is the canonical decimal string of an integer `n < 2^32 - 1`, `none`
otherwise.  Such keys are enumerated first by `for (const k in obj)`. -/
def arrayIndex? (s : String) : Option Nat :=
  match strToNat? s with
  | some n => if s = toString n ∧ n < 4294967295 then some n else none
  | none => none

/-- Stable insertion of a key into a list sorted by ascending array
index. -/
def insertByIndex (k : String) : List String → List String
  | [] => [k]
  | j :: rest =>
    if (arrayIndex? k).getD 0 ≤ (arrayIndex? j).getD 0 then k :: j :: rest
    else j :: insertByIndex k rest

/-- Stable insertion sort of array-index keys by ascending index. -/
def sortByIndex : List String → List String
  | [] => []
  | k :: rest => insertByIndex k (sortByIndex rest)

/-- The key sequence `for (const k in fields)` enumerates for a JS object
whose properties are `fs` in insertion order: array-index keys in
ascending numeric order first, then the remaining keys in insertion
(registration) order. -/
def forInKeys (fs : List (String × Field)) : List String :=
  sortByIndex ((fs.map Prod.fst).filter (fun k => (arrayIndex? k).isSome)) ++
    (fs.map Prod.fst).filter (fun k => !(arrayIndex? k).isSome)

/-- `delete fields[k]` on the registry object. -/
def deleteField (fs : List (String × Field)) (k : String) : List (String × Field) :=
  fs.filter (fun p => p.1 != k)

/-- Result of the `for (const k in fields)` loop of `submit`: the surviving
registry (entries deleted for unmounted failing fields seen before any
mounted failure), the threaded error store, the `errored` flag, and the
list of keys whose field was actually validated, in iteration order. -/
structure LoopResult where
  fields : List (String × Field)
  errors : ErrMap
  errored : Bool
  checked : List String

/-- The field loop of `submit`, iterating the enumerated key sequence over
the live registry: `const field = fields[k]` is read fresh each turn and
`if (!field) continue` skips a missing key; otherwise the field is
validated by `checkValid` (its updated element written back through the
alias in the registry), and a failing field
(`field.element.validationMessage || error`) reached while `errored` is
still false either sets `errored` (when still mounted) or is deleted from
the registry (when unmounted). -/
def submitLoop (errorClass : String) :
    List String → List (String × Field) → ErrMap → Bool → LoopResult
  | [], fields, errors, errored =>
    { fields := fields, errors := errors, errored := errored, checked := [] }
  | k :: rest, fields, errors, errored =>
    match fields.find? (fun p => p.1 == k) with
    | none => submitLoop errorClass rest fields errors errored
    | some kf =>
      let r := checkValid kf.2 errors errorClass
      let fields1 := setField fields k r.field
      if !errored && ((validationMessage r.field.element != "") || (r.message != "")) then
        if r.field.element.mounted then
          let res := submitLoop errorClass rest fields1 r.errors true
          { res with checked := k :: res.checked }
        else
          let res := submitLoop errorClass rest (deleteField fields1 k) r.errors errored
          { res with checked := k :: res.checked }
      else
        let res := submitLoop errorClass rest fields1 r.errors errored
        { res with checked := k :: res.checked }

/-- `setErrors` with the whole `clearErrors` object: every existing key of
the store is assigned `undefined`, i.e. deleted. -/
def clearErrors (errors : ErrMap) : ErrMap :=
  errors.foldl (fun e p => setErr e p.1 none) errors

/-- One iteration of the `aria-invalid` marking loop over a key of an
object-valued callback result: a key not present in the registry is
skipped (`continue`); for a present key the registered element gets
`aria-invalid="true"`. -/
def markStep (fs : List (String × Field)) (p : String × Option String) :
    List (String × Field) :=
  if (fs.find? (fun q => q.1 == p.1)).isSome then
    fs.map (fun q =>
      if q.1 == p.1 then (q.1, { q.2 with element := setAriaInvalid q.2.element "true" })
      else q)
  else fs

/-- The `for (const name in callbackResult)` marking loop of `submit`. -/
def markCallbackErrors (obj : List (String × Option String))
    (fs : List (String × Field)) : List (String × Field) :=
  obj.foldl markStep fs

/-- The user-supplied submit callback's awaited result: `some obj` models an
object result (`callbackResult instanceof Object`, its own enumerable
entries listed in order, a value of `none` modelling an explicit
`undefined` property); `none` models any non-object result (`void`,
primitives). -/
abbrev CallbackResult := Option (List (String × Option String))

/-- Result of one `submit(callback, ref)` pass, with the observables the
specification talks about: the final state, the keys validated in order,
how many times the callback ran, and the sequence of values written to the
`isSubmitting` signal during the pass. -/
structure SubmitResult where
  state : FormState
  checked : List String
  callbackCalls : Nat
  submittingWrites : List Bool

/-- Shallow embedding of `submit` (src/main.ts): validate every field in
registry order; when any mounted field failed, return before touching
`isSubmitting` or the callback; otherwise set `isSubmitting` around exactly
one callback invocation, then either merge an object result into the error
store (marking its registered keys `aria-invalid`) or clear the store and
set `isSubmitted`. -/
def submit (s : FormState) (cb : CallbackResult) (errorClass : String) : SubmitResult :=
  let res := submitLoop errorClass (forInKeys s.fields) s.fields s.errors false
  let s1 : FormState := { s with fields := res.fields, errors := res.errors }
  if res.errored then
    { state := s1, checked := res.checked, callbackCalls := 0, submittingWrites := [] }
  else
    match cb with
    | some obj =>
      { state := { s1 with fields := markCallbackErrors obj s1.fields,
                           errors := obj.foldl (fun e p => setErr e p.1 p.2) s1.errors,
                           isSubmitting := false },
        checked := res.checked, callbackCalls := 1, submittingWrites := [true, false] }
    | none =>
      { state := { s1 with errors := clearErrors s1.errors,
                           isSubmitting := false, isSubmitted := true },
        checked := res.checked, callbackCalls := 1, submittingWrites := [true, false] }

/-- Environment action on the DOM, not library code: the element registered
under `name` is removed from the document (e.g. the UI framework unmounts
it).  The library installs no cleanup hook, so only the element's
containment changes; the registry keeps its entry. -/
def unmountField (s : FormState) (name : String) : FormState :=
  { s with fields := s.fields.map (fun p =>
      if p.1 == name then (p.1, { p.2 with element := { p.2.element with mounted := false } })
      else p) }

/-- One observable step of a `useForm` context: the library's handlers and
entry points, plus the environment unmounting an element. -/
inductive Step : FormState → FormState → Prop where
  | register (s : FormState) (ref : Elem) (vs : Option (List (Option ValidatorFn))) :
      Step s (registerField s ref vs)
  | blur (s : FormState) (config : Field) (ec : String) :
      Step s (onblur s config ec)
  | input (s : FormState) (ref : Elem) (ec : String) :
      Step s (oninput s ref ec).1
  | fieldCheck (s : FormState) (name ec : String) :
      Step s (validateField s name ec).1
  | submitPass (s : FormState) (cb : CallbackResult) (ec : String) :
      Step s (submit s cb ec).state
  | reset (s : FormState) :
      Step s { s with errors := clearErrors s.errors }
  | unmount (s : FormState) (name : String) :
      Step s (unmountField s name)

/-- States a `useForm` context can reach from its initial state. -/
inductive Reachable : FormState → Prop where
  | init : Reachable initState
  | step {s s' : FormState} : Reachable s → Step s s' → Reachable s'

/-- A failing field, as the `submit` loop and `validateField` observe it
after `checkValid`: `field.element.validationMessage || error`.  This is a
property of the field alone (the store and `errorClass` arguments of
`checkValid` do not influence it). -/
def fieldFails (f : Field) : Bool :=
  let r := checkValid f [] ""
  (validationMessage r.field.element != "") || (r.message != "")

/-! ### PocketBase helpers (src/pocketbase.ts) -/

/-- An `<input>` of the form as `querySelectorAll('input[type="checkbox"]')`
sees it: its `name` and its `type` attribute. -/
structure FormInput where
  name : String
  inputType : String
  deriving Repr, DecidableEq

/-- `FormData` modelled as its ordered entry list (a name may repeat). -/
abbrev FormDataM := List (String × String)

/-- `formData.has(k)`. -/
def fdHas (fd : FormDataM) (k : String) : Bool :=
  (fd.find? (fun p => p.1 == k)).isSome

/-- `formData.getAll(k)`, the values under `k` in order. -/
def fdGetAll (fd : FormDataM) (k : String) : List String :=
  (fd.filter (fun p => p.1 == k)).map Prod.snd

/-- `formData.set(k, v)`: replace the first entry under `k` and drop the
rest; append when `k` is absent. -/
def fdSet : FormDataM → String → String → FormDataM
  | [], k, v => [(k, v)]
  | p :: rest, k, v =>
    if p.1 == k then (k, v) :: rest.filter (fun q => q.1 != k)
    else p :: fdSet rest k v

/-- The callback run on each checkbox input: `if (!formData.has(input.name))
formData.set(input.name, 'false')`. -/
def ensureCheckboxEntry (fd : FormDataM) (input : FormInput) : FormDataM :=
  if !(fdHas fd input.name) then fdSet fd input.name "false" else fd

/-- `prepareFormDataForPocketbase(formData, form)`: for every checkbox input
of the form whose name has no entry yet, set it to "false"; the updated
`formData` is returned. -/
def prepareFormDataForPocketbase (formData : FormDataM) (form : List FormInput) : FormDataM :=
  (form.filter (fun i => i.inputType == "checkbox")).foldl ensureCheckboxEntry formData

/-- One value of PocketBase's `e.data.data` record: an object with a
`message`. -/
structure PBFieldItem where
  message : String
  deriving Repr, DecidableEq

/-- A caught error as `parsePocketbaseError` inspects it: its `message`,
and `some entries` exactly when `e?.data?.data` is a truthy object (the
guard of `isPocketbaseFieldError`), `none` otherwise. -/
structure PBError where
  message : String
  dataData : Option (List (String × PBFieldItem))

/-- `isPocketbaseFieldError(e)`: `e?.data?.data && typeof e?.data?.data ===
'object'`. -/
def isPocketbaseFieldError (e : PBError) : Bool :=
  e.dataData.isSome

/-- `Object.assign(base, Object.fromEntries(extra))`: keys of `extra` are
written into `base` in order, later occurrences overriding earlier ones. -/
def objAssign (base : List (String × String)) (extra : List (String × String)) :
    List (String × String) :=
  extra.foldl (fun acc p => setKey acc p.1 p.2) base

/-- `parsePocketbaseError(e, rootErrorKey)`: start from `{ [rootErrorKey]:
e.message }` and, when the error carries structured field data, assign
every field's `message` under its key. -/
def parsePocketbaseError (e : PBError) (rootErrorKey : String) : List (String × String) :=
  let result := [(rootErrorKey, e.message)]
  if isPocketbaseFieldError e then
    objAssign result ((e.dataData.getD []).map (fun p => (p.1, p.2.message)))
  else result

/-- `parsePocketbaseError` with the default second argument `'form'`. -/
def parsePocketbaseErrorDefault (e : PBError) : List (String × String) :=
  parsePocketbaseError e "form"

/-- The value written at the last occurrence of key `k` in an entry list:
the value `Object.fromEntries` followed by `Object.assign` leaves for `k`. -/
def lastLookup : List (String × String) → String → Option String
  | [], _ => none
  | p :: rest, k =>
    match lastLookup rest k with
    | some v => some v
    | none => if p.1 == k then some p.2 else none

/-! ### Concrete elements, fields and states used to exercise the model -/

/-- A natively valid input element named "a". -/
def elOk : Elem :=
  { name := "a", mounted := true, hasValidity := true, nativeMsg := "",
    customMsg := "", ariaInvalid := none, hasErrorClass := false }

/-- An input named "b" failing native constraint validation. -/
def elNative : Elem :=
  { name := "b", mounted := true, hasValidity := true, nativeMsg := "native bad",
    customMsg := "", ariaInvalid := none, hasErrorClass := false }

/-- An input named "c" failing native validation and no longer contained in
the document. -/
def elGone : Elem :=
  { name := "c", mounted := false, hasValidity := true, nativeMsg := "gone bad",
    customMsg := "", ariaInvalid := none, hasErrorClass := false }

/-- A non-input element (no constraint-validation API) named "d". -/
def elDiv : Elem :=
  { name := "d", mounted := true, hasValidity := false, nativeMsg := "",
    customMsg := "", ariaInvalid := none, hasErrorClass := false }

/-- A validator that always passes with a non-string falsy value. -/
def vPass : ValidatorFn := fun _ => none

/-- A validator returning the falsy empty string. -/
def vBlank : ValidatorFn := fun _ => some ""

/-- A validator that always fails with "boom". -/
def vBoom : ValidatorFn := fun _ => some "boom"

/-- A validator that fails with "other". -/
def vOther : ValidatorFn := fun _ => some "other"

/-- The natively valid element "a" with no validators: always passes. -/
def fOk : Field := { element := elOk, validators := [some vPass] }

/-- The natively failing element "b". -/
def fNative : Field := { element := elNative, validators := [] }

/-- The unmounted natively failing element "c". -/
def fGone : Field := { element := elGone, validators := [] }

/-- The non-input element "d" with a failing validator. -/
def fDiv : Field := { element := elDiv, validators := [some vBoom] }

/-- The valid element "a" with a failing validator. -/
def fBoom : Field := { element := elOk, validators := [none, some vBlank, some vBoom] }

/-- A context holding a failing field "b" followed by a passing field "a". -/
def sTwo : FormState :=
  { fields := [("b", fNative), ("a", fOk)], errors := [],
    isSubmitting := false, isSubmitted := false }

/-- A passing input named "b". -/
def elPlainB : Elem :=
  { name := "b", mounted := true, hasValidity := true, nativeMsg := "",
    customMsg := "", ariaInvalid := none, hasErrorClass := false }

/-- A passing input whose name is the array-index string "0". -/
def elZero : Elem :=
  { name := "0", mounted := true, hasValidity := true, nativeMsg := "",
    customMsg := "", ariaInvalid := none, hasErrorClass := false }

/-- The field of the passing input "b". -/
def fPlainB : Field := { element := elPlainB, validators := [] }

/-- The field of the passing input named "0". -/
def fZero : Field := { element := elZero, validators := [] }

/-- A context where "b" was registered before the array-index name "0". -/
def sNum : FormState :=
  { fields := [("b", fPlainB), ("0", fZero)], errors := [],
    isSubmitting := false, isSubmitted := false }

/-- A context holding one mounted failing field. -/
def sFail : FormState :=
  { fields := [("b", fNative)], errors := [], isSubmitting := false, isSubmitted := false }

/-- A context holding one unmounted failing field. -/
def sGone : FormState :=
  { fields := [("c", fGone)], errors := [], isSubmitting := false, isSubmitted := false }

/-- A context holding one passing field. -/
def sOk : FormState :=
  { fields := [("a", fOk)], errors := [], isSubmitting := false, isSubmitted := false }

/-- A context that stored the empty string under "a": reached by registering
the passing element "a" and running a submit pass whose callback resolved to
the object `{ a: "" }`. -/
def sBlankErr : FormState :=
  (submit (registerField initState elOk (some [])) (some [("a", some "")]) "").state

/-- A reachable context whose registered element "a" has since been removed
from the document. -/
def sStale : FormState := unmountField (registerField initState elOk (some [])) "a"

/-- A PocketBase error whose structured field data contains the key "form",
clashing with the default root error key. -/
def pbRootClash : PBError :=
  { message := "root err", dataData := some [("form", { message := "field err" })] }

/-- An error without structured PocketBase field data. -/
def pbPlain : PBError := { message := "oops", dataData := none }

/-! ### General lemmas about the model -/

theorem runValidators_truthy {el : Elem} :
    ∀ {vs : List (Option ValidatorFn)} {t : String},
      runValidators el vs = some t → t ≠ "" := by
  intro vs
  induction vs with
  | nil => intro t h; simp [runValidators] at h
  | cons w rest ih =>
    intro t h
    cases w with
    | none => exact ih (by simpa [runValidators] using h)
    | some g =>
      by_cases hg : truthy (g el) = true
      · rw [runValidators, hg] at h
        simp at h
        rcases hgel : g el with _ | u
        · rw [hgel] at hg; simp [truthy] at hg
        · rw [hgel] at hg h
          simp [truthy] at hg
          simp at h
          subst h; exact hg
      · rw [runValidators] at h
        rw [Bool.not_eq_true] at hg
        rw [hg] at h
        simp at h
        exact ih h

@[simp] theorem setCustomValidity_name (el : Elem) (m : String) :
    (setCustomValidity el m).name = el.name := by
  unfold setCustomValidity; split <;> rfl

@[simp] theorem setCustomValidity_mounted (el : Elem) (m : String) :
    (setCustomValidity el m).mounted = el.mounted := by
  unfold setCustomValidity; split <;> rfl

@[simp] theorem setCustomValidity_hasValidity (el : Elem) (m : String) :
    (setCustomValidity el m).hasValidity = el.hasValidity := by
  unfold setCustomValidity; split <;> rfl

@[simp] theorem setAriaInvalid_name (el : Elem) (v : String) :
    (setAriaInvalid el v).name = el.name := rfl

@[simp] theorem setAriaInvalid_mounted (el : Elem) (v : String) :
    (setAriaInvalid el v).mounted = el.mounted := rfl

@[simp] theorem toggleErrorClass_name (el : Elem) (b : Bool) :
    (toggleErrorClass el b).name = el.name := rfl

@[simp] theorem toggleErrorClass_mounted (el : Elem) (b : Bool) :
    (toggleErrorClass el b).mounted = el.mounted := rfl

@[simp] theorem validationMessage_setAriaInvalid (el : Elem) (v : String) :
    validationMessage (setAriaInvalid el v) = validationMessage el := rfl

@[simp] theorem validationMessage_toggleErrorClass (el : Elem) (b : Bool) :
    validationMessage (toggleErrorClass el b) = validationMessage el := rfl

/-- Characterization of one `checkValid` call through its specification
views: the returned message is `checkMessage f`, the element becomes
`checkElem f ec`, and the store gains the message under the element's name
exactly when the message is non-empty. -/
theorem checkValid_eq (f : Field) (e : ErrMap) (ec : String) :
    checkValid f e ec =
      { field := { element := checkElem f ec, validators := f.validators },
        errors := if checkMessage f != "" then
                    setErr e f.element.name (some (checkMessage f))
                  else e,
        message := checkMessage f } := by
  unfold checkValid checkElem checkMessage loopElem
  by_cases h0 : validationMessage (setCustomValidity f.element "") = ""
  · rcases hr : runValidators (setCustomValidity f.element "") f.validators with _ | t
    · simp [h0, hr]
    · have ht : t ≠ "" := runValidators_truthy hr
      by_cases hec : ec = ""
      · simp [h0, hr, ht, hec]
      · simp [h0, hr, ht, hec]
  · have h0' : (validationMessage (setCustomValidity f.element "") != "") = true := by
      simpa using h0
    by_cases hec : ec = ""
    · simp [h0', hec]
      simp at h0'
      simp [h0']
    · simp [h0', hec]
      simp at h0'
      simp [h0']

@[simp] theorem loopElem_mounted (f : Field) :
    (loopElem f).mounted = f.element.mounted := by
  simp only [loopElem]
  split
  · simp
  · split <;> simp

@[simp] theorem loopElem_name (f : Field) :
    (loopElem f).name = f.element.name := by
  simp only [loopElem]
  split
  · simp
  · split <;> simp

@[simp] theorem checkElem_mounted (f : Field) (ec : String) :
    (checkElem f ec).mounted = f.element.mounted := by
  unfold checkElem
  split
  · split <;> simp
  · simp

@[simp] theorem checkElem_name (f : Field) (ec : String) :
    (checkElem f ec).name = f.element.name := by
  unfold checkElem
  split
  · split <;> simp
  · simp

theorem checkMessage_empty_validationMessage (f : Field) (ec : String)
    (h : checkMessage f = "") : validationMessage (checkElem f ec) = "" := by
  unfold checkElem
  have h' : (checkMessage f != "") = false := by simp [h]
  rw [h']
  simp only [Bool.false_eq_true, if_false]
  simp only [checkMessage] at h
  simp only [loopElem]
  split
  · rename_i hvm
    rw [if_pos hvm] at h
    simp at hvm
    exact absurd h hvm
  · rename_i hvm
    rw [if_neg hvm] at h
    simp at hvm
    split
    · rename_i t hr
      rw [hr] at h
      exact absurd (h ▸ runValidators_truthy hr) (fun hne => hne rfl)
    · simpa [validationMessage, setCustomValidity] using hvm

/-- The failure guard the submit loop and `validateField` evaluate after
`checkValid` equals `fieldFails`, a property of the field alone. -/
theorem fieldFails_eq (f : Field) (e : ErrMap) (ec : String) :
    ((validationMessage (checkValid f e ec).field.element != "") ||
      ((checkValid f e ec).message != "")) = fieldFails f := by
  have key : ∀ (e' : ErrMap) (ec' : String),
      ((validationMessage (checkValid f e' ec').field.element != "") ||
        ((checkValid f e' ec').message != "")) = (checkMessage f != "") := by
    intro e' ec'
    rw [checkValid_eq]
    by_cases h : checkMessage f = ""
    · simp [h, checkMessage_empty_validationMessage f ec' h]
    · simp [h]
  rw [key, fieldFails, key]

theorem find?_map_setField_other (fs : List (String × Field)) (j : String) (f : Field)
    (k : String) (h : k ≠ j) :
    (fs.map (fun p => if p.1 == j then (j, f) else p)).find? (fun p => p.1 == k) =
      fs.find? (fun p => p.1 == k) := by
  induction fs with
  | nil => rfl
  | cons p rest ih =>
    by_cases hp : p.1 = j
    · have hhead : (if (p.1 == j) = true then (j, f) else p) = (j, f) := by simp [hp]
      rw [List.map_cons, hhead,
          List.find?_cons_of_neg _ (by simp; intro he; exact h he.symm),
          List.find?_cons_of_neg _ (by simp [hp]; intro he; exact h he.symm),
          ih]
    · have hhead : (if (p.1 == j) = true then (j, f) else p) = p := by simp [hp]
      rw [List.map_cons, hhead]
      by_cases hk : p.1 = k
      · rw [List.find?_cons_of_pos _ (by simp [hk]), List.find?_cons_of_pos _ (by simp [hk])]
      · rw [List.find?_cons_of_neg _ (by simp [hk]), List.find?_cons_of_neg _ (by simp [hk])]
        exact ih

theorem find?_append_field_other (fs : List (String × Field)) (j : String) (f : Field)
    (k : String) (h : k ≠ j) :
    (fs ++ [(j, f)]).find? (fun p => p.1 == k) = fs.find? (fun p => p.1 == k) := by
  induction fs with
  | nil =>
    simp only [List.nil_append]
    rw [List.find?_cons_of_neg _ (by simp; intro he; exact h he.symm)]
  | cons p rest ih =>
    by_cases hk : p.1 = k
    · rw [List.cons_append, List.find?_cons_of_pos _ (by simp [hk]),
          List.find?_cons_of_pos _ (by simp [hk])]
    · rw [List.cons_append, List.find?_cons_of_neg _ (by simp [hk]),
          List.find?_cons_of_neg _ (by simp [hk]), ih]

theorem find?_setField_other (fs : List (String × Field)) (j : String) (f : Field)
    (k : String) (h : k ≠ j) :
    (setField fs j f).find? (fun p => p.1 == k) = fs.find? (fun p => p.1 == k) := by
  unfold setField
  split
  · exact find?_map_setField_other fs j f k h
  · exact find?_append_field_other fs j f k h

theorem find?_deleteField_other (fs : List (String × Field)) (j k : String) (h : k ≠ j) :
    (deleteField fs j).find? (fun p => p.1 == k) = fs.find? (fun p => p.1 == k) := by
  unfold deleteField
  induction fs with
  | nil => rfl
  | cons p rest ih =>
    by_cases hp : p.1 = j
    · rw [List.filter_cons_of_neg (by simp [hp]),
          List.find?_cons_of_neg _ (by simp [hp]; intro he; exact h he.symm)]
      exact ih
    · rw [List.filter_cons_of_pos (by simpa using hp)]
      by_cases hk : p.1 = k
      · rw [List.find?_cons_of_pos _ (by simp [hk]), List.find?_cons_of_pos _ (by simp [hk])]
      · rw [List.find?_cons_of_neg _ (by simp [hk]), List.find?_cons_of_neg _ (by simp [hk])]
        exact ih

theorem insertByIndex_perm (k : String) :
    ∀ l : List String, (insertByIndex k l).Perm (k :: l) := by
  intro l
  induction l with
  | nil => exact List.Perm.refl _
  | cons j rest ih =>
    unfold insertByIndex
    split
    · exact List.Perm.refl _
    · exact (List.Perm.cons j ih).trans (List.Perm.swap k j rest)

theorem sortByIndex_perm : ∀ l : List String, (sortByIndex l).Perm l := by
  intro l
  induction l with
  | nil => exact List.Perm.refl _
  | cons k rest ih =>
    exact (insertByIndex_perm k (sortByIndex rest)).trans (List.Perm.cons k ih)

theorem forInKeys_perm (fs : List (String × Field)) :
    (forInKeys fs).Perm (fs.map Prod.fst) := by
  unfold forInKeys
  exact ((sortByIndex_perm _).append_right _).trans
    (List.filter_append_perm _ (fs.map Prod.fst))

theorem pres_setField (fields : List (String × Field)) (j : String) (f : Field)
    (rest : List String) (hj : j ∉ rest)
    (hpres : ∀ i ∈ rest, (fields.find? (fun p => p.1 == i)).isSome = true) :
    ∀ i ∈ rest, ((setField fields j f).find? (fun p => p.1 == i)).isSome = true := by
  intro i hi
  rw [find?_setField_other fields j f i (fun he => hj (he ▸ hi))]
  exact hpres i hi

theorem pres_deleteField (fields : List (String × Field)) (j : String)
    (rest : List String) (hj : j ∉ rest)
    (hpres : ∀ i ∈ rest, (fields.find? (fun p => p.1 == i)).isSome = true) :
    ∀ i ∈ rest, ((deleteField fields j).find? (fun p => p.1 == i)).isSome = true := by
  intro i hi
  rw [find?_deleteField_other fields j i (fun he => hj (he ▸ hi))]
  exact hpres i hi

theorem submitLoop_checked (ec : String) :
    ∀ (keys : List String), keys.Nodup →
      ∀ (fields : List (String × Field)) (errors : ErrMap) (errored : Bool),
      (∀ j ∈ keys, (fields.find? (fun p => p.1 == j)).isSome = true) →
      (submitLoop ec keys fields errors errored).checked = keys := by
  intro keys
  induction keys with
  | nil => intro _ fields errors errored _; rfl
  | cons j rest ih =>
    intro hnd fields errors errored hpres
    rw [List.nodup_cons] at hnd
    obtain ⟨hjrest, hnd⟩ := hnd
    have hjs := hpres j (List.mem_cons_self j rest)
    rw [Option.isSome_iff_exists] at hjs
    obtain ⟨kf, hkf⟩ := hjs
    have hpres' : ∀ i ∈ rest, (fields.find? (fun p => p.1 == i)).isSome = true :=
      fun i hi => hpres i (List.mem_cons_of_mem j hi)
    simp only [submitLoop, hkf]
    split
    · split
      · show j :: (submitLoop ec rest _ _ true).checked = j :: rest
        rw [ih hnd _ _ _
          (pres_setField fields j (checkValid kf.2 errors ec).field rest hjrest hpres')]
      · show j :: (submitLoop ec rest _ _ errored).checked = j :: rest
        rw [ih hnd _ _ _
          (pres_deleteField _ j rest hjrest
            (pres_setField fields j (checkValid kf.2 errors ec).field rest hjrest hpres'))]
    · show j :: (submitLoop ec rest _ _ errored).checked = j :: rest
      rw [ih hnd _ _ _
        (pres_setField fields j (checkValid kf.2 errors ec).field rest hjrest hpres')]

theorem submit_checked (s : FormState) (cb : CallbackResult) (ec : String) :
    (submit s cb ec).checked =
      (submitLoop ec (forInKeys s.fields) s.fields s.errors false).checked := by
  simp only [submit]
  split
  · rfl
  · cases cb <;> rfl

/-! ### Claim C1 -/

/-- C1 counterexample: the submit pass does not validate fields in
registration order when a field name is an array-index string.  In `sNum`,
"b" was registered before "0", yet `for (const k in fields)` enumerates the
array-index key "0" first, so the validation trace is ["0", "b"], not the
registration order ["b", "0"]. -/
theorem numeric_field_checked_first :
    sNum.fields.map Prod.fst = ["b", "0"] ∧
    (submit sNum none "").checked = ["0", "b"] ∧
    (submit sNum none "").checked ≠ sNum.fields.map Prod.fst :=
  ⟨rfl, rfl, by decide⟩

/-- C1 (amended): for a registered field the validators run strictly
sequentially in list order and iteration stops at the first truthy string
(skipped falsy prefix entries and falsy results do not stop it, and
validators after the first truthy one are never consulted); during a submit
pass every field of the registry is validated — a failure in one field does
not prevent validation of the remaining fields — in the JS `for-in`
enumeration order of the registry object: array-index names in ascending
numeric order first, then the remaining names in registration order (which
coincides with registration order exactly when no name is an array index).
The registry keys are unique, being the property names of one object. -/
theorem validators_and_fields_sequential
    (el : Elem) (pre post : List (Option ValidatorFn)) (v : ValidatorFn)
    (hpre : pre.all (fun w => match w with | none => true | some g => !(truthy (g el))) = true)
    (hv : truthy (v el) = true)
    (s : FormState) (cb : CallbackResult) (ec : String)
    (hnd : (s.fields.map Prod.fst).Nodup) :
    runValidators el (pre ++ some v :: post) = v el ∧
    (submit s cb ec).checked = forInKeys s.fields ∧
    (∀ k ∈ s.fields.map Prod.fst, k ∈ (submit s cb ec).checked) := by
  have hchecked : (submit s cb ec).checked = forInKeys s.fields := by
    rw [submit_checked]
    refine submitLoop_checked ec (forInKeys s.fields)
      (((forInKeys_perm s.fields).nodup_iff).mpr hnd) s.fields s.errors false ?_
    intro j hj
    have hjk : j ∈ s.fields.map Prod.fst := (forInKeys_perm s.fields).mem_iff.mp hj
    rw [List.mem_map] at hjk
    obtain ⟨p, hp, hpj⟩ := hjk
    rw [List.find?_isSome]
    exact ⟨p, hp, by simp [hpj]⟩
  refine ⟨?_, hchecked, ?_⟩
  · induction pre with
    | nil => simp [runValidators, hv]
    | cons w rest ih =>
      rw [List.all_cons, Bool.and_eq_true] at hpre
      obtain ⟨hw, hrest⟩ := hpre
      cases w with
      | none =>
        rw [List.cons_append, runValidators]
        exact ih hrest
      | some g =>
        have hg : truthy (g el) = false := by simpa using hw
        rw [List.cons_append, runValidators, hg]
        simpa using ih hrest
  · intro k hk
    rw [hchecked]
    exact (forInKeys_perm s.fields).mem_iff.mpr hk

/-- Witness for C1 (amended) at concrete inputs: a skipped falsy entry and
a falsy ("") validator before a failing one, a further validator after it,
and a two-field registry whose first field fails while both fields still
get validated in enumeration order. -/
theorem validators_and_fields_sequential_witness :
    ([none, some vBlank].all
        (fun w => match w with | none => true | some g => !(truthy (g elOk))) = true) ∧
    truthy (vBoom elOk) = true ∧
    (sTwo.fields.map Prod.fst).Nodup ∧
    runValidators elOk ([none, some vBlank] ++ some vBoom :: [some vOther]) = vBoom elOk ∧
    (submit sTwo none "").checked = forInKeys sTwo.fields ∧
    (∀ k ∈ sTwo.fields.map Prod.fst, k ∈ (submit sTwo none "").checked) := by
  have h := validators_and_fields_sequential elOk [none, some vBlank] [some vOther] vBoom
    rfl rfl sTwo none "" (by decide)
  exact ⟨rfl, rfl, by decide, h.1, h.2.1, h.2.2⟩

/-! ### Store lemmas -/

theorem getErr_setKey_self (m : List (String × String)) (k v : String) :
    getErr (setKey m k v) k = some v := by
  unfold getErr setKey
  split
  · rename_i hsome
    induction m with
    | nil => simp at hsome
    | cons p rest ih =>
      by_cases hp : p.1 = k
      · simp [List.find?_cons, hp]
      · have hp' : (p.1 == k) = false := by simpa using hp
        rw [List.find?_cons_of_neg _ (by simp [hp'])] at hsome
        simp only [List.map_cons, if_neg hp]
        rw [List.find?_cons_of_neg _ (by simp [hp'])]
        exact ih hsome
  · induction m with
    | nil => simp [List.find?_cons]
    | cons p rest ih =>
      rename_i hnone
      by_cases hp : p.1 = k
      · exact absurd (by simp [List.find?_cons, hp]) hnone
      · have hp' : (p.1 == k) = false := by simpa using hp
        rw [List.cons_append, List.find?_cons_of_neg _ (by simp [hp'])]
        apply ih
        rw [List.find?_cons_of_neg _ (by simp [hp'])] at hnone
        exact hnone

theorem find?_map_setKey_other (m : List (String × String)) (k v j : String) (h : j ≠ k) :
    (m.map (fun p => if p.1 == k then (k, v) else p)).find? (fun p => p.1 == j) =
      m.find? (fun p => p.1 == j) := by
  induction m with
  | nil => rfl
  | cons p rest ih =>
    by_cases hp : p.1 = k
    · have hhead : (if (p.1 == k) = true then (k, v) else p) = (k, v) := by simp [hp]
      rw [List.map_cons, hhead,
          List.find?_cons_of_neg _ (by simp; intro he; exact h he.symm),
          List.find?_cons_of_neg _ (by simp [hp]; intro he; exact h he.symm),
          ih]
    · have hhead : (if (p.1 == k) = true then (k, v) else p) = p := by simp [hp]
      rw [List.map_cons, hhead]
      by_cases hpj : p.1 = j
      · rw [List.find?_cons_of_pos _ (by simp [hpj]), List.find?_cons_of_pos _ (by simp [hpj])]
      · rw [List.find?_cons_of_neg _ (by simp [hpj]), List.find?_cons_of_neg _ (by simp [hpj])]
        exact ih

theorem find?_append_single_other (m : List (String × String)) (k v j : String) (h : j ≠ k) :
    (m ++ [(k, v)]).find? (fun p => p.1 == j) = m.find? (fun p => p.1 == j) := by
  induction m with
  | nil =>
    simp only [List.nil_append]
    rw [List.find?_cons_of_neg _ (by simp; intro he; exact h he.symm)]
  | cons p rest ih =>
    by_cases hpj : p.1 = j
    · rw [List.cons_append, List.find?_cons_of_pos _ (by simp [hpj]),
          List.find?_cons_of_pos _ (by simp [hpj])]
    · rw [List.cons_append, List.find?_cons_of_neg _ (by simp [hpj]),
          List.find?_cons_of_neg _ (by simp [hpj])]
      exact ih

theorem getErr_setKey_other (m : List (String × String)) (k v j : String) (h : j ≠ k) :
    getErr (setKey m k v) j = getErr m j := by
  unfold getErr setKey
  split
  · rw [find?_map_setKey_other m k v j h]
  · rw [find?_append_single_other m k v j h]

theorem getErr_setErr_none_self (m : ErrMap) (k : String) :
    getErr (setErr m k none) k = none := by
  unfold getErr setErr
  rw [List.find?_eq_none.mpr]
  · rfl
  · intro p hp
    rw [List.mem_filter] at hp
    simpa using hp.2

theorem getErr_setErr_none_other (m : ErrMap) (k j : String) (h : j ≠ k) :
    getErr (setErr m k none) j = getErr m j := by
  unfold getErr setErr
  induction m with
  | nil => rfl
  | cons p rest ih =>
    by_cases hpk : p.1 = k
    · rw [List.filter_cons_of_neg (by simp [hpk])]
      rw [List.find?_cons_of_neg _ (by simp [hpk]; intro he; exact h he.symm)]
      exact ih
    · rw [List.filter_cons_of_pos (by simpa using hpk)]
      by_cases hpj : p.1 = j
      · rw [List.find?_cons_of_pos _ (by simp [hpj]), List.find?_cons_of_pos _ (by simp [hpj])]
      · rw [List.find?_cons_of_neg _ (by simp [hpj]), List.find?_cons_of_neg _ (by simp [hpj])]
        exact ih

theorem getErr_setErr_some_self (m : ErrMap) (k v : String) :
    getErr (setErr m k (some v)) k = some v :=
  getErr_setKey_self m k v

theorem checkValid_mounted (f : Field) (e : ErrMap) (ec : String) :
    (checkValid f e ec).field.element.mounted = f.element.mounted := by
  rw [checkValid_eq]; exact checkElem_mounted f ec

/-! ### Claim C2 -/

/-- C2: contrary to the claim, the installed blur handler never runs the
validation: it resets `isSubmitted` and returns the `checkValid` closure
without invoking it.  At the concrete registered input "b" that fails native
validation, blurring leaves the error store empty and the whole state equal
to the input state but for `isSubmitted`, even though actually invoking
`checkValid` (as submit does) would return "native bad" and record it. -/
theorem blur_runs_no_validation :
    (onblur sFail fNative "").errors = [] ∧
    onblur sFail fNative "" = { sFail with isSubmitted := false } ∧
    (checkValid fNative [] "").message = "native bad" ∧
    getErr (checkValid fNative [] "").errors "b" = some "native bad" :=
  ⟨rfl, rfl, rfl, rfl⟩

/-! ### Claim C3 -/

theorem submitLoop_errored_mono (ec : String) :
    ∀ (keys : List String) (fields : List (String × Field)) (errors : ErrMap),
      (submitLoop ec keys fields errors true).errored = true := by
  intro keys
  induction keys with
  | nil => intro fields e; rfl
  | cons j rest ih =>
    intro fields e
    rcases hkf : fields.find? (fun p => p.1 == j) with _ | kf
    · simp only [submitLoop, hkf]
      exact ih fields e
    · simp only [submitLoop, hkf, Bool.not_true, Bool.false_and, Bool.false_eq_true, if_false]
      exact ih _ _

theorem submitLoop_errored_of_fail (ec : String) (k : String) (f : Field)
    (hm : f.element.mounted = true) (hf : fieldFails f = true) :
    ∀ (keys : List String) (fields : List (String × Field)) (errors : ErrMap) (errored : Bool),
      k ∈ keys → fields.find? (fun p => p.1 == k) = some (k, f) →
      (submitLoop ec keys fields errors errored).errored = true := by
  intro keys
  induction keys with
  | nil => intro fields e er hmem _; simp at hmem
  | cons j rest ih =>
    intro fields e er hmem hfind
    by_cases hjk : j = k
    · subst hjk
      simp only [submitLoop, hfind]
      by_cases her : er = true
      · subst her
        simp only [Bool.not_true, Bool.false_and, Bool.false_eq_true, if_false]
        exact submitLoop_errored_mono ec rest _ _
      · have her' : er = false := by simpa using her
        subst her'
        rw [fieldFails_eq, hf]
        simp only [Bool.not_false, Bool.true_and, if_true]
        rw [checkValid_mounted, hm]
        simp only [if_true]
        exact submitLoop_errored_mono ec rest _ _
    · have hkrest : k ∈ rest := by
        rcases List.mem_cons.mp hmem with h1 | h2
        · exact absurd h1.symm hjk
        · exact h2
      rcases hkf : fields.find? (fun p => p.1 == j) with _ | kf
      · simp only [submitLoop, hkf]
        exact ih fields e er hkrest hfind
      · simp only [submitLoop, hkf]
        split
        · split
          · exact submitLoop_errored_mono ec rest _ _
          · refine ih _ _ er hkrest ?_
            rw [find?_deleteField_other _ j k (fun he => hjk he.symm),
                find?_setField_other fields j _ k (fun he => hjk he.symm)]
            exact hfind
        · refine ih _ _ er hkrest ?_
          rw [find?_setField_other fields j _ k (fun he => hjk he.symm)]
          exact hfind

/-- C3: when some registered field (`fields[k]`) whose element is still
contained in the document fails validation during a submit pass, the pass
returns before the callback: the callback is never invoked, `isSubmitting`
is never written (hence stays false), and `isSubmitted` keeps its value
false. -/
theorem submit_mounted_failure_blocks (s : FormState) (cb : CallbackResult) (ec : String)
    (k : String) (f : Field)
    (hfind : s.fields.find? (fun p => p.1 == k) = some (k, f))
    (hm : f.element.mounted = true) (hf : fieldFails f = true)
    (hsub : s.isSubmitted = false) (hing : s.isSubmitting = false) :
    (submit s cb ec).callbackCalls = 0 ∧
    (submit s cb ec).submittingWrites = [] ∧
    (submit s cb ec).state.isSubmitting = false ∧
    (submit s cb ec).state.isSubmitted = false := by
  have hmemk : k ∈ forInKeys s.fields := by
    refine (forInKeys_perm s.fields).mem_iff.mpr ?_
    rw [List.mem_map]
    exact ⟨(k, f), List.mem_of_find?_eq_some hfind, rfl⟩
  have her : (submitLoop ec (forInKeys s.fields) s.fields s.errors false).errored = true :=
    submitLoop_errored_of_fail ec k f hm hf (forInKeys s.fields) s.fields s.errors false
      hmemk hfind
  refine ⟨?_, ?_, ?_, ?_⟩ <;> simp only [submit, her, if_true] <;> simp [hing, hsub]

/-- Witness for C3: the context holding the mounted natively-failing field
"b" and a trivial callback. -/
theorem submit_mounted_failure_blocks_witness :
    fieldFails fNative = true ∧
    (submit sFail none "").callbackCalls = 0 ∧
    (submit sFail none "").submittingWrites = [] ∧
    (submit sFail none "").state.isSubmitting = false ∧
    (submit sFail none "").state.isSubmitted = false := by
  have h := submit_mounted_failure_blocks sFail none "" "b" fNative rfl rfl rfl rfl rfl
  exact ⟨rfl, h.1, h.2.1, h.2.2.1, h.2.2.2⟩

/-! ### Claim C4 -/

theorem validationMessage_setCustomValidity_truthy (el : Elem) (t : String)
    (hv : el.hasValidity = true) (ht : t ≠ "") :
    validationMessage (setCustomValidity el t) = t := by
  have h1 : setCustomValidity el t = { el with customMsg := t } := by
    unfold setCustomValidity; rw [if_pos hv]
  rw [h1]
  unfold validationMessage
  simp [hv, ht]

theorem validationMessage_checkElem_of_hasValidity (f : Field) (ec : String)
    (hv : f.element.hasValidity = true) (h : checkMessage f ≠ "") :
    validationMessage (checkElem f ec) = checkMessage f := by
  have h' : (checkMessage f != "") = true := by simpa using h
  unfold checkElem
  rw [h']
  simp only [if_true, validationMessage_setAriaInvalid]
  have hmid : validationMessage
      (if (ec != "") = true then toggleErrorClass (loopElem f) true else loopElem f) =
      validationMessage (loopElem f) := by
    split <;> simp
  rw [hmid]
  by_cases h0 : validationMessage (setCustomValidity f.element "") = ""
  · rcases hr : runValidators (setCustomValidity f.element "") f.validators with _ | t
    · exact absurd (by simp [checkMessage, h0, hr]) h
    · have ht : t ≠ "" := runValidators_truthy hr
      have hv0 : (setCustomValidity f.element "").hasValidity = true := by simpa using hv
      have hcond : (validationMessage (setCustomValidity f.element "") != "") = false := by
        simp [h0]
      simp only [loopElem, checkMessage, hcond, Bool.false_eq_true, if_false, hr]
      exact validationMessage_setCustomValidity_truthy _ t hv0 ht
  · have hcond : (validationMessage (setCustomValidity f.element "") != "") = true := by
      simpa using h0
    simp only [loopElem, checkMessage, hcond, if_true]

/-- C4 counterexample: the claim fails for registered elements without the
constraint-validation API.  On the non-input element "d" with a validator
failing with "boom", `checkValid` records "boom" in the store and marks
`aria-invalid`, but the optional-chained `setCustomValidity?.` is a no-op,
so the element's `validationMessage` does not carry the message. -/
theorem div_failure_not_in_validationMessage :
    (checkValid fDiv [] "").message = "boom" ∧
    getErr (checkValid fDiv [] "").errors "d" = some "boom" ∧
    (checkValid fDiv [] "").field.element.ariaInvalid = some "true" ∧
    validationMessage (checkValid fDiv [] "").field.element = "" :=
  ⟨rfl, rfl, rfl, rfl⟩

/-- C4 (amended): whenever `checkValid` produces a failure message m, the
element is marked `aria-invalid="true"`, the error class is added when one
is configured, and the store entry under the element's name becomes exactly
m; additionally, for elements supporting the constraint-validation API (and
only for those), the DOM `validationMessage` mechanism carries m. -/
theorem failure_surfacing (f : Field) (e : ErrMap) (ec : String)
    (h : (checkValid f e ec).message ≠ "") :
    (checkValid f e ec).field.element.ariaInvalid = some "true" ∧
    (ec ≠ "" → (checkValid f e ec).field.element.hasErrorClass = true) ∧
    getErr (checkValid f e ec).errors f.element.name = some ((checkValid f e ec).message) ∧
    (f.element.hasValidity = true →
      validationMessage (checkValid f e ec).field.element = (checkValid f e ec).message) := by
  rw [checkValid_eq] at h ⊢
  have hm : checkMessage f ≠ "" := h
  have hm' : (checkMessage f != "") = true := by simpa using hm
  refine ⟨?_, ?_, ?_, ?_⟩
  · show (checkElem f ec).ariaInvalid = some "true"
    unfold checkElem
    rw [hm']
    rfl
  · intro hec
    show (checkElem f ec).hasErrorClass = true
    unfold checkElem
    rw [hm']
    have hec' : (ec != "") = true := by simpa using hec
    rw [hec']
    rfl
  · show getErr (if checkMessage f != "" then
        setErr e f.element.name (some (checkMessage f)) else e) f.element.name =
      some (checkMessage f)
    rw [hm']
    exact getErr_setErr_some_self e f.element.name (checkMessage f)
  · intro hv
    exact validationMessage_checkElem_of_hasValidity f ec hv hm

/-- Witness for C4 (amended) at the concrete failing input field "a" with
error class "err". -/
theorem failure_surfacing_witness :
    (checkValid fBoom [] "err").message ≠ "" ∧
    (checkValid fBoom [] "err").field.element.ariaInvalid = some "true" ∧
    ("err" ≠ "" → (checkValid fBoom [] "err").field.element.hasErrorClass = true) ∧
    getErr (checkValid fBoom [] "err").errors "a" =
      some ((checkValid fBoom [] "err").message) ∧
    (elOk.hasValidity = true →
      validationMessage (checkValid fBoom [] "err").field.element =
        (checkValid fBoom [] "err").message) := by
  have h := failure_surfacing fBoom [] "err" (by decide)
  exact ⟨by decide, h.1, h.2.1, h.2.2.1, h.2.2.2⟩

/-! ### Claim C9 -/

/-- C9: `validateField` on an unregistered name returns false with the
whole context (store, registry, flags, elements) unchanged; on a registered
name it runs that field's `checkValid` against the store and returns true
exactly when the recorded error for the name is not truthy afterwards. -/
theorem validateField_contract (s : FormState) (name ec : String) :
    (s.fields.find? (fun p => p.1 == name) = none →
      validateField s name ec = (s, false)) ∧
    (∀ k f, s.fields.find? (fun p => p.1 == name) = some (k, f) →
      (validateField s name ec).1.errors = (checkValid f s.errors ec).errors ∧
      ((validateField s name ec).2 = true ↔
        truthy (getErr (validateField s name ec).1.errors name) = false)) := by
  constructor
  · intro h
    unfold validateField
    rw [h]
  · intro k f h
    unfold validateField
    rw [h]
    exact ⟨rfl, by simp⟩

/-- Witness for C9: the unregistered name "zzz" in a one-field context, and
the registered failing name "b". -/
theorem validateField_contract_witness :
    validateField sOk "zzz" "" = (sOk, false) ∧
    ((validateField sFail "b" "").1.errors = (checkValid fNative sFail.errors "").errors ∧
      ((validateField sFail "b" "").2 = true ↔
        truthy (getErr (validateField sFail "b" "").1.errors "b") = false)) :=
  ⟨(validateField_contract sOk "zzz" "").1 rfl,
   (validateField_contract sFail "b" "").2 "b" fNative rfl⟩

/-! ### Claim C10 -/

/-- C10 counterexample: the error store can hold the empty string (here via
a submit callback that resolved to `{ a: "" }`), and an input event then
leaves that entry in place — `oninput` only clears a truthy entry, so the
claim's "if the error store has an entry for that field's name, exactly
that entry is cleared" fails, and the element is not touched either. -/
theorem oninput_blank_entry_not_cleared :
    getErr sBlankErr.errors "a" = some "" ∧
    getErr (oninput sBlankErr elOk "").1.errors "a" = some "" ∧
    (oninput sBlankErr elOk "").2 = elOk :=
  ⟨rfl, rfl, rfl⟩

/-- C10 (amended): every input event resets `isSubmitted`; when the store
entry for the field's name is truthy (a non-empty string) exactly that
entry is removed, every other name's entry is untouched, the element gets
`aria-invalid="false"` and loses the error class when one is configured,
and registry and `isSubmitting` are untouched; when the entry is absent or
the empty string, neither the store nor the element is modified. -/
theorem oninput_clears_truthy_entry (s : FormState) (ref : Elem) (ec : String) :
    (oninput s ref ec).1.isSubmitted = false ∧
    (truthy (getErr s.errors ref.name) = true →
      getErr (oninput s ref ec).1.errors ref.name = none ∧
      (∀ k, k ≠ ref.name → getErr (oninput s ref ec).1.errors k = getErr s.errors k) ∧
      (oninput s ref ec).2.ariaInvalid = some "false" ∧
      (ec ≠ "" → (oninput s ref ec).2.hasErrorClass = false) ∧
      (oninput s ref ec).1.fields = s.fields ∧
      (oninput s ref ec).1.isSubmitting = s.isSubmitting) ∧
    (truthy (getErr s.errors ref.name) = false →
      (oninput s ref ec).1.errors = s.errors ∧ (oninput s ref ec).2 = ref) := by
  refine ⟨?_, ?_, ?_⟩
  · simp only [oninput]
    split <;> rfl
  · intro ht
    simp only [oninput, ht, Bool.not_true, Bool.false_eq_true, if_false]
    refine ⟨getErr_setErr_none_self s.errors ref.name,
            fun k hk => getErr_setErr_none_other s.errors ref.name k hk, ?_, ?_, ?_, ?_⟩
    · split <;> rfl
    · intro hec
      rw [if_pos (by simpa using hec)]
      rfl
    · trivial
    · trivial
  · intro hf
    simp only [oninput, hf, Bool.not_false, if_true]
    constructor <;> trivial

/-- Witness for C10 (amended): an input event on "b" while the store holds
the truthy message "native bad" for it, with error class "err". -/
theorem oninput_clears_truthy_entry_witness :
    truthy (getErr [("b", "native bad")] "b") = true ∧
    (oninput { sFail with errors := [("b", "native bad")] } elNative "err").1.isSubmitted
        = false ∧
    getErr (oninput { sFail with errors := [("b", "native bad")] } elNative "err").1.errors
        "b" = none ∧
    (oninput { sFail with errors := [("b", "native bad")] } elNative "err").2.ariaInvalid
        = some "false" := by
  have h := oninput_clears_truthy_entry
    { sFail with errors := [("b", "native bad")] } elNative "err"
  have h2 := h.2.1 (by decide)
  exact ⟨by decide, h.1, h2.1, h2.2.2.1⟩

/-! ### Claim C5 -/

theorem fieldFails_eq_checkMessage (f : Field) : fieldFails f = (checkMessage f != "") := by
  unfold fieldFails
  rw [checkValid_eq]
  by_cases h : checkMessage f = ""
  · simp [h, checkMessage_empty_validationMessage f "" h]
  · simp [h]

theorem submitLoop_all_pass (ec : String) (fields0 : List (String × Field))
    (hall : ∀ p ∈ fields0, fieldFails p.2 = false) :
    ∀ (keys : List String), keys.Nodup →
      ∀ (fields : List (String × Field)) (errors : ErrMap) (errored : Bool),
      (∀ j ∈ keys, fields.find? (fun p => p.1 == j) = fields0.find? (fun p => p.1 == j)) →
      (submitLoop ec keys fields errors errored).errors = errors ∧
      (submitLoop ec keys fields errors errored).errored = errored := by
  intro keys
  induction keys with
  | nil => intro _ fields e er _; exact ⟨rfl, rfl⟩
  | cons j rest ih =>
    intro hnd fields e er hinv
    rw [List.nodup_cons] at hnd
    obtain ⟨hjrest, hnd⟩ := hnd
    have hj := hinv j (List.mem_cons_self j rest)
    have hinv' : ∀ i ∈ rest,
        fields.find? (fun p => p.1 == i) = fields0.find? (fun p => p.1 == i) :=
      fun i hi => hinv i (List.mem_cons_of_mem j hi)
    rcases hkf : fields0.find? (fun p => p.1 == j) with _ | kf
    · rw [hkf] at hj
      simp only [submitLoop, hj]
      exact ih hnd fields e er hinv'
    · rw [hkf] at hj
      have hkmem : kf ∈ fields0 := List.mem_of_find?_eq_some hkf
      have hpass : fieldFails kf.2 = false := hall kf hkmem
      have herr : (checkValid kf.2 e ec).errors = e := by
        rw [checkValid_eq]
        have hcm : (checkMessage kf.2 != "") = false := by
          rw [← fieldFails_eq_checkMessage]; exact hpass
        simp [hcm]
      simp only [submitLoop, hj, fieldFails_eq, hpass, Bool.and_false, Bool.false_eq_true,
        if_false]
      rw [herr]
      refine ih hnd _ _ er ?_
      intro i hi
      rw [find?_setField_other fields j _ i (fun he => hjrest (he ▸ hi))]
      exact hinv' i hi

theorem map_fst_markMap (j : String) :
    ∀ fs : List (String × Field),
      (fs.map (fun q =>
        if q.1 == j then (q.1, { q.2 with element := setAriaInvalid q.2.element "true" })
        else q)).map Prod.fst = fs.map Prod.fst := by
  intro fs
  induction fs with
  | nil => rfl
  | cons p rest ih =>
    simp only [List.map_cons, List.cons.injEq]
    exact ⟨by split <;> rfl, ih⟩

theorem markStep_keys (fs : List (String × Field)) (q : String × Option String) :
    (markStep fs q).map Prod.fst = fs.map Prod.fst := by
  unfold markStep
  split
  · exact map_fst_markMap q.1 fs
  · rfl

theorem markCallbackErrors_keys (obj : List (String × Option String)) :
    ∀ fs : List (String × Field),
      (markCallbackErrors obj fs).map Prod.fst = fs.map Prod.fst := by
  induction obj with
  | nil => intro fs; rfl
  | cons q obj ih =>
    intro fs
    rw [show markCallbackErrors (q :: obj) fs = markCallbackErrors obj (markStep fs q) from rfl,
        ih, markStep_keys]

theorem markStep_preserves_aria (name : String) (fs : List (String × Field))
    (q : String × Option String)
    (h : ∀ p ∈ fs, p.1 = name → p.2.element.ariaInvalid = some "true") :
    ∀ p ∈ markStep fs q, p.1 = name → p.2.element.ariaInvalid = some "true" := by
  intro p hp hpname
  unfold markStep at hp
  split at hp
  · rw [List.mem_map] at hp
    obtain ⟨p0, hp0, hgp⟩ := hp
    by_cases hq : p0.1 = q.1
    · rw [if_pos (by simpa using hq)] at hgp
      rw [← hgp]
      rfl
    · rw [if_neg (by simpa using hq)] at hgp
      exact hgp ▸ h p0 hp0 (by rw [← hgp] at hpname; exact hpname)
  · exact h p hp hpname

theorem markStep_sets_aria (name : String) (v : Option String)
    (fs : List (String × Field)) :
    ∀ p ∈ markStep fs (name, v), p.1 = name → p.2.element.ariaInvalid = some "true" := by
  intro p hp hpname
  unfold markStep at hp
  split at hp
  · rw [List.mem_map] at hp
    obtain ⟨p0, hp0, hgp⟩ := hp
    by_cases hq : p0.1 = name
    · rw [if_pos (by simpa using hq)] at hgp
      rw [← hgp]
      rfl
    · rw [if_neg (by simpa using hq)] at hgp
      exact absurd (by rw [← hgp] at hpname; exact hpname) hq
  · rename_i hnone
    exfalso
    apply hnone
    rw [List.find?_isSome]
    exact ⟨p, hp, by simpa using hpname⟩

theorem markCallbackErrors_preserves_aria (name : String) :
    ∀ (obj : List (String × Option String)) (fs : List (String × Field)),
      (∀ p ∈ fs, p.1 = name → p.2.element.ariaInvalid = some "true") →
      ∀ p ∈ markCallbackErrors obj fs, p.1 = name → p.2.element.ariaInvalid = some "true" := by
  intro obj
  induction obj with
  | nil => intro fs h; exact h
  | cons q obj ih =>
    intro fs h
    exact ih (markStep fs q) (markStep_preserves_aria name fs q h)

theorem markCallbackErrors_aria (obj : List (String × Option String)) (name : String)
    (v : Option String) (hmem : (name, v) ∈ obj) :
    ∀ (fs : List (String × Field)) (p : String × Field),
      p ∈ markCallbackErrors obj fs → p.1 = name →
      p.2.element.ariaInvalid = some "true" := by
  induction obj with
  | nil => simp at hmem
  | cons q obj ih =>
    intro fs p hp hpname
    rcases List.mem_cons.mp hmem with heq | hrest
    · subst heq
      exact markCallbackErrors_preserves_aria name obj (markStep fs (name, v))
        (markStep_sets_aria name v fs) p hp hpname
    · exact ih hrest (markStep fs q) p hp hpname

theorem getErr_eq_none_of_not_mem (m : ErrMap) (k : String)
    (h : k ∉ m.map Prod.fst) : getErr m k = none := by
  unfold getErr
  rw [List.find?_eq_none.mpr]
  · rfl
  · intro p hp hpk
    exact h (List.mem_map.mpr ⟨p, hp, by simpa using hpk⟩)

theorem foldl_setErr_none_preserves (k : String) :
    ∀ (l : List (String × String)) (acc : ErrMap),
      getErr acc k = none →
      getErr (l.foldl (fun e p => setErr e p.1 none) acc) k = none := by
  intro l
  induction l with
  | nil => intro acc h; exact h
  | cons q l ih =>
    intro acc h
    show getErr (l.foldl (fun e p => setErr e p.1 none) (setErr acc q.1 none)) k = none
    apply ih
    by_cases hq : q.1 = k
    · rw [hq]; exact getErr_setErr_none_self acc k
    · rw [getErr_setErr_none_other acc q.1 k (fun he => hq he.symm)]
      exact h

theorem foldl_setErr_none_covers (k : String) :
    ∀ (l : List (String × String)) (acc : ErrMap),
      (k ∈ l.map Prod.fst ∨ getErr acc k = none) →
      getErr (l.foldl (fun e p => setErr e p.1 none) acc) k = none := by
  intro l
  induction l with
  | nil =>
    intro acc h
    rcases h with h | h
    · simp at h
    · exact h
  | cons q l ih =>
    intro acc h
    show getErr (l.foldl (fun e p => setErr e p.1 none) (setErr acc q.1 none)) k = none
    apply ih
    by_cases hq : q.1 = k
    · refine Or.inr ?_
      rw [hq]; exact getErr_setErr_none_self acc k
    · rcases h with h | h
      · rw [List.map_cons] at h
        rcases List.mem_cons.mp h with heq | hmem
        · exact absurd heq.symm hq
        · exact Or.inl hmem
      · refine Or.inr ?_
        rw [getErr_setErr_none_other acc q.1 k (fun he => hq he.symm)]
        exact h

theorem getErr_clearErrors (m : ErrMap) (k : String) :
    getErr (clearErrors m) k = none := by
  unfold clearErrors
  by_cases hk : k ∈ m.map Prod.fst
  · exact foldl_setErr_none_covers k m m (Or.inl hk)
  · exact foldl_setErr_none_covers k m m (Or.inr (getErr_eq_none_of_not_mem m k hk))

/-- C5: when every registered field passes validation, the submit callback
runs exactly once; an object result is merged into the error store, every
key of it that names a registered field gets its element marked
`aria-invalid="true"`, and `isSubmitted` keeps its value false; a
non-object result clears every entry of the store and sets `isSubmitted`. -/
theorem submit_all_pass (s : FormState) (cb : CallbackResult) (ec : String)
    (hall : s.fields.all (fun p => !(fieldFails p.2)) = true)
    (hnd : (s.fields.map Prod.fst).Nodup)
    (hsub : s.isSubmitted = false) :
    (submit s cb ec).callbackCalls = 1 ∧
    (match cb with
     | some obj =>
        (submit s cb ec).state.errors =
          obj.foldl (fun e p => setErr e p.1 p.2) s.errors ∧
        (submit s cb ec).state.isSubmitted = false ∧
        (∀ name v, (name, v) ∈ obj →
          ∀ p, (submit s cb ec).state.fields.find? (fun q => q.1 == name) = some p →
            p.2.element.ariaInvalid = some "true")
     | none =>
        (∀ k, getErr (submit s cb ec).state.errors k = none) ∧
        (submit s cb ec).state.isSubmitted = true) := by
  obtain ⟨h1, h2⟩ := submitLoop_all_pass ec s.fields
    (fun p hp => by simpa using List.all_eq_true.mp hall p hp)
    (forInKeys s.fields) (((forInKeys_perm s.fields).nodup_iff).mpr hnd)
    s.fields s.errors false (fun j _ => rfl)
  constructor
  · simp only [submit, h2, Bool.false_eq_true, if_false]
    cases cb <;> rfl
  · cases cb with
    | none =>
      constructor
      · intro k
        simp only [submit, h2, Bool.false_eq_true, if_false]
        rw [h1]
        exact getErr_clearErrors s.errors k
      · simp only [submit, h2, Bool.false_eq_true, if_false]
    | some obj =>
      refine ⟨?_, ?_, ?_⟩
      · simp only [submit, h2, Bool.false_eq_true, if_false]
        rw [h1]
      · simp only [submit, h2, Bool.false_eq_true, if_false]
        exact hsub
      · intro name v hmem p hfind
        revert hfind
        simp only [submit, h2, Bool.false_eq_true, if_false]
        intro hfind
        exact markCallbackErrors_aria obj name v hmem _ p
          (List.mem_of_find?_eq_some hfind)
          (by simpa using List.find?_some hfind)

/-- Witness for C5: the all-passing one-field context under both callback
outcomes — an object result `{ a: "server bad" }` and a void result. -/
theorem submit_all_pass_witness :
    sOk.fields.all (fun p => !(fieldFails p.2)) = true ∧
    (sOk.fields.map Prod.fst).Nodup ∧
    (submit sOk (some [("a", some "server bad")]) "").callbackCalls = 1 ∧
    ((submit sOk (some [("a", some "server bad")]) "").state.errors =
      [("a", some "server bad")].foldl (fun e p => setErr e p.1 p.2) sOk.errors ∧
     (submit sOk (some [("a", some "server bad")]) "").state.isSubmitted = false ∧
     (∀ name v, (name, v) ∈ [("a", (some "server bad" : Option String))] →
       ∀ p, (submit sOk (some [("a", some "server bad")]) "").state.fields.find?
           (fun q => q.1 == name) = some p →
         p.2.element.ariaInvalid = some "true")) ∧
    ((∀ k, getErr (submit sOk none "").state.errors k = none) ∧
     (submit sOk none "").state.isSubmitted = true) := by
  have hobj := submit_all_pass sOk (some [("a", some "server bad")]) "" rfl (by decide) rfl
  have hnone := submit_all_pass sOk none "" rfl (by decide) rfl
  exact ⟨rfl, by decide, hobj.1, hobj.2, hnone.2⟩

/-! ### Claim C6 -/

theorem find?_filter_ne_key (k j : String) (h : j ≠ k) :
    ∀ l : FormDataM,
      (l.filter (fun q => q.1 != k)).find? (fun q => q.1 == j) =
        l.find? (fun q => q.1 == j) := by
  intro l
  induction l with
  | nil => rfl
  | cons p rest ih =>
    by_cases hp : p.1 = k
    · rw [List.filter_cons_of_neg (by simp [hp]), ih,
          List.find?_cons_of_neg _ (by simp [hp]; intro he; exact h he.symm)]
    · rw [List.filter_cons_of_pos (by simpa using hp)]
      by_cases hj : p.1 = j
      · rw [List.find?_cons_of_pos _ (by simp [hj]), List.find?_cons_of_pos _ (by simp [hj])]
      · rw [List.find?_cons_of_neg _ (by simp [hj]), List.find?_cons_of_neg _ (by simp [hj]),
            ih]

theorem getAll_filter_ne_self (k : String) :
    ∀ l : FormDataM, fdGetAll (l.filter (fun q => q.1 != k)) k = [] := by
  intro l
  induction l with
  | nil => rfl
  | cons p rest ih =>
    by_cases hp : p.1 = k
    · rw [List.filter_cons_of_neg (by simp [hp])]
      exact ih
    · rw [List.filter_cons_of_pos (by simpa using hp)]
      unfold fdGetAll
      rw [List.filter_cons_of_neg (by simpa using hp)]
      exact ih

theorem fdHas_fdSet_self (fd : FormDataM) (k v : String) :
    fdHas (fdSet fd k v) k = true := by
  induction fd with
  | nil => simp [fdSet, fdHas]
  | cons p rest ih =>
    by_cases hp : p.1 = k
    · unfold fdSet fdHas
      rw [if_pos (by simpa using hp), List.find?_cons_of_pos _ (by simp)]
      rfl
    · unfold fdSet fdHas
      rw [if_neg (by simpa using hp), List.find?_cons_of_neg _ (by simpa using hp)]
      exact ih

theorem fdHas_fdSet_other (fd : FormDataM) (k v j : String) (h : j ≠ k) :
    fdHas (fdSet fd k v) j = fdHas fd j := by
  induction fd with
  | nil =>
    unfold fdSet fdHas
    rw [List.find?_cons_of_neg _ (by simp; intro he; exact h he.symm)]
  | cons p rest ih =>
    by_cases hp : p.1 = k
    · unfold fdSet fdHas
      rw [if_pos (by simpa using hp),
          List.find?_cons_of_neg _ (by simp; intro he; exact h he.symm),
          List.find?_cons_of_neg _ (by simp [hp]; intro he; exact h he.symm),
          find?_filter_ne_key k j h rest]
    · unfold fdSet fdHas
      rw [if_neg (by simpa using hp)]
      by_cases hj : p.1 = j
      · rw [List.find?_cons_of_pos _ (by simp [hj]), List.find?_cons_of_pos _ (by simp [hj])]
      · rw [List.find?_cons_of_neg _ (by simp [hj]), List.find?_cons_of_neg _ (by simp [hj])]
        exact ih

theorem fdGetAll_fdSet_self (fd : FormDataM) (k v : String) :
    fdGetAll (fdSet fd k v) k = [v] := by
  induction fd with
  | nil =>
    unfold fdSet fdGetAll
    rw [List.filter_cons_of_pos (by simp)]
    rfl
  | cons p rest ih =>
    by_cases hp : p.1 = k
    · unfold fdSet fdGetAll
      rw [if_pos (by simpa using hp), List.filter_cons_of_pos (by simp)]
      have := getAll_filter_ne_self k rest
      unfold fdGetAll at this
      simp only [List.map_cons, this]
    · unfold fdSet fdGetAll
      rw [if_neg (by simpa using hp), List.filter_cons_of_neg (by simpa using hp)]
      exact ih

theorem fdGetAll_fdSet_other (fd : FormDataM) (k v j : String) (h : j ≠ k) :
    fdGetAll (fdSet fd k v) j = fdGetAll fd j := by
  induction fd with
  | nil =>
    unfold fdSet fdGetAll
    rw [List.filter_cons_of_neg (by simp; intro he; exact h he.symm)]
  | cons p rest ih =>
    by_cases hp : p.1 = k
    · unfold fdSet fdGetAll
      rw [if_pos (by simpa using hp),
          List.filter_cons_of_neg (by simp; intro he; exact h he.symm),
          List.filter_cons_of_neg (by simp [hp]; intro he; exact h he.symm)]
      have h2 := find?_filter_ne_key k j h
      -- entries under j of the k-filtered list coincide with those of rest
      have : ∀ l : FormDataM,
          (l.filter (fun q => q.1 != k)).filter (fun q => q.1 == j) =
            l.filter (fun q => q.1 == j) := by
        intro l
        induction l with
        | nil => rfl
        | cons r lrest ihl =>
          by_cases hr : r.1 = k
          · rw [List.filter_cons_of_neg (by simp [hr]),
                List.filter_cons_of_neg (by simp [hr]; intro he; exact h he.symm)]
            exact ihl
          · rw [List.filter_cons_of_pos (by simpa using hr)]
            by_cases hrj : r.1 = j
            · rw [List.filter_cons_of_pos (by simp [hrj]),
                  List.filter_cons_of_pos (by simp [hrj]), ihl]
            · rw [List.filter_cons_of_neg (by simp [hrj]),
                  List.filter_cons_of_neg (by simp [hrj]), ihl]
      rw [this rest]
    · unfold fdSet fdGetAll
      rw [if_neg (by simpa using hp)]
      by_cases hj : p.1 = j
      · rw [List.filter_cons_of_pos (by simp [hj]), List.filter_cons_of_pos (by simp [hj])]
        unfold fdGetAll at ih
        simp only [List.map_cons, ih]
      · rw [List.filter_cons_of_neg (by simp [hj]), List.filter_cons_of_neg (by simp [hj])]
        exact ih

theorem ensure_has_self (fd : FormDataM) (i : FormInput) :
    fdHas (ensureCheckboxEntry fd i) i.name = true := by
  unfold ensureCheckboxEntry
  split
  · exact fdHas_fdSet_self fd i.name "false"
  · rename_i h
    simpa using h

theorem ensure_other (fd : FormDataM) (i : FormInput) (j : String) (h : i.name ≠ j) :
    fdHas (ensureCheckboxEntry fd i) j = fdHas fd j ∧
    fdGetAll (ensureCheckboxEntry fd i) j = fdGetAll fd j := by
  unfold ensureCheckboxEntry
  split
  · exact ⟨fdHas_fdSet_other fd i.name "false" j (fun he => h he.symm),
           fdGetAll_fdSet_other fd i.name "false" j (fun he => h he.symm)⟩
  · exact ⟨rfl, rfl⟩

theorem ensure_preserves (fd : FormDataM) (i : FormInput) (j : String)
    (hj : fdHas fd j = true) :
    fdHas (ensureCheckboxEntry fd i) j = true ∧
    fdGetAll (ensureCheckboxEntry fd i) j = fdGetAll fd j := by
  by_cases hn : i.name = j
  · subst hn
    unfold ensureCheckboxEntry
    rw [hj]
    exact ⟨hj, rfl⟩
  · obtain ⟨h1, h2⟩ := ensure_other fd i j hn
    exact ⟨h1.trans hj, h2⟩

theorem foldl_ensure_preserves (j : String) :
    ∀ (cs : List FormInput) (fd : FormDataM), fdHas fd j = true →
      fdHas (cs.foldl ensureCheckboxEntry fd) j = true ∧
      fdGetAll (cs.foldl ensureCheckboxEntry fd) j = fdGetAll fd j := by
  intro cs
  induction cs with
  | nil => intro fd h; exact ⟨h, rfl⟩
  | cons c rest ih =>
    intro fd h
    obtain ⟨h1, h2⟩ := ensure_preserves fd c j h
    obtain ⟨ih1, ih2⟩ := ih (ensureCheckboxEntry fd c) h1
    exact ⟨ih1, ih2.trans h2⟩

theorem foldl_ensure_has (cs : List FormInput) :
    ∀ (fd : FormDataM) (i : FormInput), i ∈ cs →
      fdHas (cs.foldl ensureCheckboxEntry fd) i.name = true := by
  induction cs with
  | nil => intro fd i h; simp at h
  | cons c rest ih =>
    intro fd i hmem
    rcases List.mem_cons.mp hmem with heq | hrest
    · subst heq
      exact (foldl_ensure_preserves i.name rest (ensureCheckboxEntry fd i)
        (ensure_has_self fd i)).1
    · exact ih (ensureCheckboxEntry fd c) i hrest

theorem foldl_ensure_new (cs : List FormInput) :
    ∀ (fd : FormDataM) (i : FormInput), i ∈ cs → fdHas fd i.name = false →
      fdGetAll (cs.foldl ensureCheckboxEntry fd) i.name = ["false"] := by
  induction cs with
  | nil => intro fd i h; simp at h
  | cons c rest ih =>
    intro fd i hmem hnew
    rw [List.foldl_cons]
    rcases List.mem_cons.mp hmem with heq | hrest
    · subst heq
      have hset : ensureCheckboxEntry fd i = fdSet fd i.name "false" := by
        unfold ensureCheckboxEntry
        rw [hnew]
        rfl
      have hres := foldl_ensure_preserves i.name rest (ensureCheckboxEntry fd i)
        (ensure_has_self fd i)
      rw [hres.2, hset, fdGetAll_fdSet_self]
    · by_cases hcn : c.name = i.name
      · have hnewc : fdHas fd c.name = false := by rw [hcn]; exact hnew
        have hset : ensureCheckboxEntry fd c = fdSet fd c.name "false" := by
          unfold ensureCheckboxEntry
          rw [hnewc]
          rfl
        have hhas : fdHas (ensureCheckboxEntry fd c) i.name = true := by
          rw [hset, ← hcn]
          exact fdHas_fdSet_self fd c.name "false"
        have hres := foldl_ensure_preserves i.name rest (ensureCheckboxEntry fd c) hhas
        rw [hres.2, hset, ← hcn, fdGetAll_fdSet_self]
      · have hpre := ensure_other fd c i.name hcn
        exact ih (ensureCheckboxEntry fd c) i hrest (hpre.1.trans hnew)

theorem foldl_ensure_untouched (j : String) :
    ∀ (cs : List FormInput) (fd : FormDataM), (∀ i ∈ cs, i.name ≠ j) →
      fdGetAll (cs.foldl ensureCheckboxEntry fd) j = fdGetAll fd j := by
  intro cs
  induction cs with
  | nil => intro fd _; rfl
  | cons c rest ih =>
    intro fd h
    have hc := ensure_other fd c j (h c (List.mem_cons_self c rest))
    rw [List.foldl_cons,
        ih (ensureCheckboxEntry fd c) (fun i hi => h i (List.mem_cons_of_mem c hi)), hc.2]

/-- C6: after `prepareFormDataForPocketbase(formData, form)` every checkbox
input's name has an entry: a name that already had entries keeps them
exactly (in particular, every entry under a non-checkbox name is
unchanged), a checkbox name without an entry gets the single entry
"false", and a name that belongs to no checkbox input is untouched. -/
theorem prepare_formdata_contract (fd : FormDataM) (form : List FormInput) :
    (∀ i ∈ form, i.inputType = "checkbox" →
      fdHas (prepareFormDataForPocketbase fd form) i.name = true) ∧
    (∀ k, fdHas fd k = true →
      fdGetAll (prepareFormDataForPocketbase fd form) k = fdGetAll fd k) ∧
    (∀ i ∈ form, i.inputType = "checkbox" → fdHas fd i.name = false →
      fdGetAll (prepareFormDataForPocketbase fd form) i.name = ["false"]) ∧
    (∀ k, (∀ i ∈ form, i.inputType = "checkbox" → i.name ≠ k) →
      fdGetAll (prepareFormDataForPocketbase fd form) k = fdGetAll fd k) := by
  refine ⟨?_, ?_, ?_, ?_⟩
  · intro i hmem htype
    exact foldl_ensure_has _ fd i (List.mem_filter.mpr ⟨hmem, by simp [htype]⟩)
  · intro k hk
    exact (foldl_ensure_preserves k _ fd hk).2
  · intro i hmem htype hnew
    exact foldl_ensure_new _ fd i (List.mem_filter.mpr ⟨hmem, by simp [htype]⟩) hnew
  · intro k hk
    refine foldl_ensure_untouched k _ fd ?_
    intro i hi
    rw [List.mem_filter] at hi
    exact hk i hi.1 (by simpa using hi.2)

/-- Witness for C6: a form with two checkboxes and a text input, where
"cb1" already has the entry "true", "t" has "x", and "cb2" is absent. -/
theorem prepare_formdata_contract_witness :
    fdHas (prepareFormDataForPocketbase [("cb1", "true"), ("t", "x")]
      [⟨"cb1", "checkbox"⟩, ⟨"t", "text"⟩, ⟨"cb2", "checkbox"⟩]) "cb2" = true ∧
    fdGetAll (prepareFormDataForPocketbase [("cb1", "true"), ("t", "x")]
      [⟨"cb1", "checkbox"⟩, ⟨"t", "text"⟩, ⟨"cb2", "checkbox"⟩]) "cb1" =
      fdGetAll [("cb1", "true"), ("t", "x")] "cb1" ∧
    fdGetAll (prepareFormDataForPocketbase [("cb1", "true"), ("t", "x")]
      [⟨"cb1", "checkbox"⟩, ⟨"t", "text"⟩, ⟨"cb2", "checkbox"⟩]) "cb2" = ["false"] ∧
    fdGetAll (prepareFormDataForPocketbase [("cb1", "true"), ("t", "x")]
      [⟨"cb1", "checkbox"⟩, ⟨"t", "text"⟩, ⟨"cb2", "checkbox"⟩]) "t" =
      fdGetAll [("cb1", "true"), ("t", "x")] "t" := by
  have h := prepare_formdata_contract [("cb1", "true"), ("t", "x")]
    [⟨"cb1", "checkbox"⟩, ⟨"t", "text"⟩, ⟨"cb2", "checkbox"⟩]
  exact ⟨h.1 ⟨"cb2", "checkbox"⟩ (by decide) rfl,
         h.2.1 "cb1" rfl,
         h.2.2.1 ⟨"cb2", "checkbox"⟩ (by decide) rfl rfl,
         h.2.2.2 "t" (by decide)⟩

/-! ### Claim C7 -/

theorem getErr_singleton (k v j : String) :
    getErr [(k, v)] j = if j = k then some v else none := by
  unfold getErr
  by_cases h : j = k
  · rw [if_pos h, List.find?_cons_of_pos _ (by simp [h])]
    rfl
  · rw [if_neg h, List.find?_cons_of_neg _ (by simp; intro he; exact h he.symm)]
    rfl

theorem getErr_objAssign :
    ∀ (l : List (String × String)) (base : List (String × String)) (j : String),
      getErr (objAssign base l) j =
        match lastLookup l j with
        | some v => some v
        | none => getErr base j := by
  intro l
  induction l with
  | nil => intro base j; rfl
  | cons p rest ih =>
    intro base j
    show getErr (objAssign (setKey base p.1 p.2) rest) j = _
    rw [ih]
    rcases hl : lastLookup rest j with _ | v
    · have hhead : lastLookup (p :: rest) j =
          (if p.1 == j then some p.2 else none) := by
        show (match lastLookup rest j with
          | some v => some v
          | none => if p.1 == j then some p.2 else none) = _
        rw [hl]
      rw [hhead]
      by_cases hj : p.1 = j
      · rw [if_pos (by simpa using hj)]
        have : j = p.1 := hj.symm
        rw [this]
        simp only [getErr_setKey_self base p.1 p.2]
      · rw [if_neg (by simpa using hj)]
        simp only [getErr_setKey_other base p.1 p.2 j (fun he => hj he.symm)]
    · have hhead : lastLookup (p :: rest) j = some v := by
        show (match lastLookup rest j with
          | some v => some v
          | none => if p.1 == j then some p.2 else none) = _
        rw [hl]
      rw [hhead]

/-- C7 counterexample: for an error whose structured field data itself
contains the key "form", `Object.assign` overrides the root entry, so the
result does not map the root key to `e.message`. -/
theorem parse_error_root_overridden :
    getErr (parsePocketbaseErrorDefault pbRootClash) "form" = some "field err" ∧
    pbRootClash.message = "root err" ∧
    getErr (parsePocketbaseErrorDefault pbRootClash) "form" ≠ some pbRootClash.message :=
  ⟨rfl, rfl, by decide⟩

/-- C7 (amended): `parsePocketbaseError(e, rootErrorKey)` maps, exactly when
`e.data.data` is a structured object, every key of it to its (last)
`message`; the root key is mapped to `e.message` unless it is overridden by
such a field key; no other key is mapped; and without structured data the
result is exactly the singleton root entry. -/
theorem parse_error_contract (e : PBError) (rootKey : String) :
    (e.dataData = none → parsePocketbaseError e rootKey = [(rootKey, e.message)]) ∧
    (∀ dd, e.dataData = some dd → ∀ k,
      getErr (parsePocketbaseError e rootKey) k =
        match lastLookup (dd.map (fun p => (p.1, p.2.message))) k with
        | some v => some v
        | none => if k = rootKey then some e.message else none) := by
  constructor
  · intro h
    unfold parsePocketbaseError isPocketbaseFieldError
    rw [h]
    rfl
  · intro dd h k
    unfold parsePocketbaseError isPocketbaseFieldError
    rw [h]
    show getErr (objAssign [(rootKey, e.message)]
      (((some dd).getD []).map (fun p => (p.1, p.2.message)))) k = _
    rw [show (some dd).getD ([] : List (String × PBFieldItem)) = dd from rfl,
        getErr_objAssign]
    rcases hl : lastLookup (dd.map (fun p => (p.1, p.2.message))) k with _ | v
    · simp only [hl]
      exact getErr_singleton rootKey e.message k
    · simp only [hl]

/-- Witness for C7 (amended): the unstructured error "oops" and the
structured error whose field data overrides the root key "form". -/
theorem parse_error_contract_witness :
    parsePocketbaseError pbPlain "form" = [("form", pbPlain.message)] ∧
    getErr (parsePocketbaseError pbRootClash "form") "form" =
      (match lastLookup ([("form", PBFieldItem.mk "field err")].map
          (fun p => (p.1, p.2.message))) "form" with
        | some v => some v
        | none => if "form" = "form" then some pbRootClash.message else none) :=
  ⟨(parse_error_contract pbPlain "form").1 rfl,
   (parse_error_contract pbRootClash "form").2 [("form", PBFieldItem.mk "field err")] rfl "form"⟩

/-! ### Claim C8 -/

/-- C8 counterexample: registry key existence does not track mounted
elements.  The context `sStale` is reachable (register "a", then the
environment removes the element from the document), its registry still has
the key "a" pointing at an unmounted element, and even a full submit pass
keeps the entry, because the field passes validation. -/
theorem registry_key_unmounted :
    Reachable sStale ∧
    (sStale.fields.find? (fun p => p.1 == "a")).map (fun p => p.2.element.mounted) =
      some false ∧
    ((submit sStale none "").state.fields.find? (fun p => p.1 == "a")).isSome = true := by
  refine ⟨?_, rfl, rfl⟩
  exact Reachable.step
    (Reachable.step Reachable.init (Step.register initState elOk (some [])))
    (Step.unmount (registerField initState elOk (some [])) "a")

theorem map_fst_setField_map (j : String) (f : Field) :
    ∀ fs : List (String × Field),
      (fs.map (fun p => if p.1 == j then (j, f) else p)).map Prod.fst =
        fs.map Prod.fst := by
  intro fs
  induction fs with
  | nil => rfl
  | cons p rest ih =>
    simp only [List.map_cons, List.cons.injEq]
    refine ⟨?_, ih⟩
    by_cases hp : p.1 = j
    · rw [if_pos (by simpa using hp)]
      exact hp.symm
    · rw [if_neg (by simpa using hp)]

theorem map_fst_setField_mem (fs : List (String × Field)) (j : String) (f : Field)
    (k : String) (h : k ∈ fs.map Prod.fst) : k ∈ (setField fs j f).map Prod.fst := by
  unfold setField
  split
  · rw [map_fst_setField_map j f fs]
    exact h
  · rw [List.map_append]
    exact List.mem_append_left _ h

theorem mem_keys_deleteField (fs : List (String × Field)) (j k : String) (h : k ≠ j)
    (hk : k ∈ fs.map Prod.fst) : k ∈ (deleteField fs j).map Prod.fst := by
  rw [List.mem_map] at hk ⊢
  obtain ⟨p, hp, hpk⟩ := hk
  refine ⟨p, ?_, hpk⟩
  unfold deleteField
  rw [List.mem_filter]
  refine ⟨hp, ?_⟩
  simp only [bne_iff_ne, ne_eq]
  intro he
  exact h (hpk ▸ he ▸ rfl)

theorem map_fst_unmountMap (name : String) :
    ∀ fs : List (String × Field),
      (fs.map (fun p =>
        if p.1 == name then (p.1, { p.2 with element := { p.2.element with mounted := false } })
        else p)).map Prod.fst = fs.map Prod.fst := by
  intro fs
  induction fs with
  | nil => rfl
  | cons p rest ih =>
    simp only [List.map_cons, List.cons.injEq]
    refine ⟨?_, ih⟩
    split <;> rfl

theorem submitLoop_keeps (ec : String) (k : String) :
    ∀ (keys : List String), k ∉ keys →
      ∀ (fields : List (String × Field)) (errors : ErrMap) (errored : Bool),
      k ∈ fields.map Prod.fst →
      k ∈ (submitLoop ec keys fields errors errored).fields.map Prod.fst := by
  intro keys
  induction keys with
  | nil => intro _ fields e er h; exact h
  | cons j rest ih =>
    intro hk fields e er hmem
    have hjk : k ≠ j := fun he => hk (he ▸ List.mem_cons_self j rest)
    have hkrest : k ∉ rest := fun hr => hk (List.mem_cons_of_mem j hr)
    rcases hkf : fields.find? (fun p => p.1 == j) with _ | kf
    · simp only [submitLoop, hkf]
      exact ih hkrest fields e er hmem
    · simp only [submitLoop, hkf]
      split
      · split
        · exact ih hkrest _ _ _ (map_fst_setField_mem fields j _ k hmem)
        · exact ih hkrest _ _ _
            (mem_keys_deleteField _ j k hjk (map_fst_setField_mem fields j _ k hmem))
      · exact ih hkrest _ _ _ (map_fst_setField_mem fields j _ k hmem)

theorem submitLoop_removed (ec : String) (k : String) (f : Field) :
    ∀ (keys : List String), keys.Nodup →
      ∀ (fields : List (String × Field)) (errors : ErrMap) (errored : Bool),
      fields.find? (fun p => p.1 == k) = some (k, f) →
      k ∉ (submitLoop ec keys fields errors errored).fields.map Prod.fst →
      f.element.mounted = false ∧ fieldFails f = true := by
  intro keys
  induction keys with
  | nil =>
    intro _ fields e er hfind hgone
    exact absurd (List.mem_map.mpr ⟨(k, f), List.mem_of_find?_eq_some hfind, rfl⟩) hgone
  | cons j rest ih =>
    intro hnd fields e er hfind hgone
    rw [List.nodup_cons] at hnd
    obtain ⟨hjrest, hnd⟩ := hnd
    have hkin : k ∈ fields.map Prod.fst :=
      List.mem_map.mpr ⟨(k, f), List.mem_of_find?_eq_some hfind, rfl⟩
    by_cases hjk : j = k
    · subst hjk
      simp only [submitLoop, hfind] at hgone
      by_cases hguard : (!er && ((validationMessage (checkValid f e ec).field.element != "")
          || ((checkValid f e ec).message != ""))) = true
      · rw [if_pos hguard] at hgone
        by_cases hmnt : (checkValid f e ec).field.element.mounted = true
        · rw [if_pos hmnt] at hgone
          exact absurd
            (submitLoop_keeps ec j rest hjrest _ _ _
              (map_fst_setField_mem fields j (checkValid f e ec).field j hkin)) hgone
        · rw [if_neg hmnt] at hgone
          rw [Bool.and_eq_true] at hguard
          have hff : fieldFails f = true := by
            rw [← fieldFails_eq f e ec]
            exact hguard.2
          have hmf : f.element.mounted = false := by
            rw [checkValid_mounted] at hmnt
            simpa using hmnt
          exact ⟨hmf, hff⟩
      · rw [if_neg hguard] at hgone
        exact absurd
          (submitLoop_keeps ec j rest hjrest _ _ _
            (map_fst_setField_mem fields j (checkValid f e ec).field j hkin)) hgone
    · rcases hkf : fields.find? (fun p => p.1 == j) with _ | kf
      · simp only [submitLoop, hkf] at hgone
        exact ih hnd fields e er hfind hgone
      · simp only [submitLoop, hkf] at hgone
        have hfind1 : (setField fields j (checkValid kf.2 e ec).field).find?
            (fun p => p.1 == k) = some (k, f) := by
          rw [find?_setField_other fields j _ k (fun he => hjk he.symm)]
          exact hfind
        by_cases hguard : (!er && ((validationMessage (checkValid kf.2 e ec).field.element != "")
            || ((checkValid kf.2 e ec).message != ""))) = true
        · rw [if_pos hguard] at hgone
          by_cases hmnt : (checkValid kf.2 e ec).field.element.mounted = true
          · rw [if_pos hmnt] at hgone
            exact ih hnd _ _ true hfind1 hgone
          · rw [if_neg hmnt] at hgone
            refine ih hnd _ _ er ?_ hgone
            rw [find?_deleteField_other _ j k (fun he => hjk he.symm)]
            exact hfind1
        · rw [if_neg hguard] at hgone
          exact ih hnd _ _ er hfind1 hgone

/-- C8 (amended): key existence in the registry does not track mounted
elements — a key may refer to an unmounted element indefinitely, as the
library installs no unmount cleanup.  No operation of the context other
than a submit pass ever removes a registry key, and every entry a submit
pass removes belonged to a field (`fields[k]`) whose element was unmounted
and which failed validation (the registry carrying its JS-object invariant
of unique keys). -/
theorem registry_removal_lazy :
    (∀ s s' : FormState, Step s s' → ∀ k, k ∈ s.fields.map Prod.fst →
      k ∉ s'.fields.map Prod.fst → ∃ cb ec, s' = (submit s cb ec).state) ∧
    (∀ (s : FormState) (cb : CallbackResult) (ec : String) (k : String) (f : Field),
      (s.fields.map Prod.fst).Nodup →
      s.fields.find? (fun p => p.1 == k) = some (k, f) →
      k ∉ (submit s cb ec).state.fields.map Prod.fst →
      f.element.mounted = false ∧ fieldFails f = true) := by
  constructor
  · intro s s' hstep k hin hout
    cases hstep with
    | register ref vs =>
      exact absurd (map_fst_setField_mem s.fields ref.name _ k hin) hout
    | blur config ec => exact absurd hin hout
    | input ref ec =>
      have hfieldsEq : (oninput s ref ec).1.fields = s.fields := by
        simp only [oninput]
        split <;> rfl
      rw [hfieldsEq] at hout
      exact absurd hin hout
    | fieldCheck name ec =>
      rcases hkf : s.fields.find? (fun p => p.1 == name) with _ | kf
      · have hbase : (validateField s name ec).1 = s := by
          simp only [validateField, hkf]
        rw [hbase] at hout
        exact absurd hin hout
      · have hbase : (validateField s name ec).1.fields =
            setField s.fields name (checkValid kf.2 s.errors ec).field := by
          simp only [validateField, hkf]
        rw [hbase] at hout
        exact absurd (map_fst_setField_mem s.fields name _ k hin) hout
    | submitPass cb ec => exact ⟨cb, ec, rfl⟩
    | reset => exact absurd hin hout
    | unmount name =>
      have hkeysEq : (unmountField s name).fields.map Prod.fst = s.fields.map Prod.fst := by
        unfold unmountField
        exact map_fst_unmountMap name s.fields
      rw [hkeysEq] at hout
      exact absurd hin hout
  · intro s cb ec k f hnd hfind hgone
    have hkeys : (submit s cb ec).state.fields.map Prod.fst =
        (submitLoop ec (forInKeys s.fields) s.fields s.errors false).fields.map Prod.fst := by
      simp only [submit]
      split
      · rfl
      · cases cb with
        | none => rfl
        | some obj => exact markCallbackErrors_keys obj _
    rw [hkeys] at hgone
    exact submitLoop_removed ec k f (forInKeys s.fields)
      (((forInKeys_perm s.fields).nodup_iff).mpr hnd) s.fields s.errors false hfind hgone

/-- Witness for C8 (amended): a submit pass on the context holding the
unmounted natively-failing field "c" removes its key, the removal step is
recognised as a submit pass, and the removed field was indeed unmounted and
failing. -/
theorem registry_removal_lazy_witness :
    (∃ cb ec, (submit sGone none "").state = (submit sGone cb ec).state) ∧
    fGone.element.mounted = false ∧ fieldFails fGone = true := by
  refine ⟨?_, ?_⟩
  · exact registry_removal_lazy.1 sGone (submit sGone none "").state
      (Step.submitPass sGone none "") "c" (by decide) (by decide)
  · exact registry_removal_lazy.2 sGone none "" "c" fGone (by decide) rfl (by decide)

end SolidValidation
